import Mathlib

/-!
# libcdio: TOC sanitizer, endianness detector and ISO-9660 extent reader

A shallow embedding of

* `atapi_drive_info`, `data_bigendianp` and `FixupTOC` of
  `lib/cdda_interface/common_interface.c`,
* the extraction loops of `example/isofile.c` (both branches) and of
  `example/isofile2.c`, `example/C++/isofile.cpp`, `example/C++/OO/isofile2.cpp`,
* the lookups of the filesystem accessor that `test/testisocd2.c` compares,
  which are library code outside the sources at hand and are modelled from
  the specification,

followed by the properties proved about them.  All definitions come first;
the theorems start at the heading "Theorems".

Conventions.  C arrays are total functions on indices, C loops are folds over
the index range or structural recursions, machine integers are `Int`/`Nat`
(every arithmetic expression of the embedded code is guarded so that it stays
inside the range of its C type, see the remarks at the definitions), and the
outside world (ioctl, block reads, the output stream) is an explicit
parameter.
-/

namespace Libcdio

/-! ## Data model of `common_interface.c` -/

/-- One entry of the table of contents of a drive (`struct TOC`): the flags
byte, the track number and the signed start sector. -/
structure TOC where
  bFlags : Nat
  bTrack : Nat
  dwStartSector : Int
deriving DecidableEq

/-- The fields of `cdrom_drive_t` that `FixupTOC` and `data_bigendianp` use.
The table `disc_toc` is a C array, embedded as a total function of the
index. -/
structure cdrom_drive_t where
  ioctl_fd : Int
  tracks : Nat
  bigendianp : Int
  disc_toc : Nat → TOC

/-- Outcome of `ioctl(d->ioctl_fd, CDROMMULTISESSION, &ms_str)`: the value the
call returns and the field `ms_str.addr.lba` it leaves behind. -/
structure ms_query where
  result : Int
  lba : Int
deriving DecidableEq

/-- Modelled from the spec: the macro `IS_AUDIO(d,i)` of `common_interface.h`
is not among the sources.  A track is audio or non-audio by a flag of its own
table entry (the data bit `0x04` of `bFlags` is clear for audio); the start
sectors are never consulted. -/
def IS_AUDIO (d : cdrom_drive_t) (i : Nat) : Bool :=
  (d.disc_toc i).bFlags / 4 % 2 == 0

/-- The assignment `d->disc_toc[j].dwStartSector = v`. -/
def setStart (toc : Nat → TOC) (j : Nat) (v : Int) : Nat → TOC :=
  fun i => if i = j then { toc i with dwStartSector := v } else toc i

/-- Body of the first loop of `FixupTOC` (lines 213-226) at index `j`:
clamp a negative start to 0, then zero the start when it exceeds the start of
the next track (as stored at that moment). -/
def fixupClampStep (i_tracks : Nat) (toc : Nat → TOC) (j : Nat) : Nat → TOC :=
  let toc1 := if (toc j).dwStartSector < 0 then setStart toc j 0 else toc
  if (j : Int) < (i_tracks : Int) - 1 ∧
      (toc1 j).dwStartSector > (toc1 (j + 1)).dwStartSector then
    setStart toc1 j 0
  else toc1

/-- The first loop of `FixupTOC`: `for(j=0;j<i_tracks;j++)`. -/
def fixupClamp (i_tracks : Nat) (toc : Nat → TOC) : Nat → TOC :=
  (List.range i_tracks).foldl (fixupClampStep i_tracks) toc

/-- Body of the second loop of `FixupTOC` (lines 231-239) at index `j`; the
state is the table together with the local variable `last`. -/
def fixupRaiseStep (st : (Nat → TOC) × Int) (j : Nat) : (Nat → TOC) × Int :=
  let toc1 := if (st.1 j).dwStartSector < st.2 then setStart st.1 j st.2 else st.1
  (toc1, (toc1 j).dwStartSector)

/-- The second loop of `FixupTOC`: `last` starts as the start of entry 0 and
`j` runs over `1 .. i_tracks-1`. -/
def fixupRaise (i_tracks : Nat) (toc : Nat → TOC) : Nat → TOC :=
  ((List.range' 1 (i_tracks - 1)).foldl fixupRaiseStep
    (toc, (toc 0).dwStartSector)).1

/-- The table after the two loops that precede the multisession query
(passes 1-3 of the sanitizer). -/
def fixupPasses (i_tracks : Nat) (toc : Nat → TOC) : Nat → TOC :=
  fixupRaise i_tracks (fixupClamp i_tracks toc)

/-- The backward loop of lines 258-265, `for (j = i_tracks-1; j >= 0; j--)`,
entered with `k = j + 1`.  At the first `j > 0` whose track is not audio while
track `j-1` is, the start of track `j` is replaced by `lba - 11400` when that
value lies strictly between the two starts, and the loop is left. -/
def fixupLeadout (lba : Int) : Nat → cdrom_drive_t → cdrom_drive_t
  | 0, d => d
  | j + 1, d =>
    if j > 0 ∧ IS_AUDIO d j = false ∧ IS_AUDIO d (j - 1) = true then
      if (d.disc_toc j).dwStartSector > lba - 11400 ∧
          lba - 11400 > (d.disc_toc (j - 1)).dwStartSector then
        { d with disc_toc := setStart d.disc_toc j (lba - 11400) }
      else d
    else fixupLeadout lba j d

/-- The function `FixupTOC(d, i_tracks)`: the value returned and the drive afterwards.
`ioctl` is the multisession query, consulted only when `d->ioctl_fd != -1`.
`lba - 11400` is evaluated only when `lba > 100`, so it cannot leave the range
of a C `int`. -/
def FixupTOC (ioctl : Int → ms_query) (d : cdrom_drive_t) (i_tracks : Nat) :
    Int × cdrom_drive_t :=
  let d1 : cdrom_drive_t := { d with disc_toc := fixupPasses i_tracks d.disc_toc }
  if d1.ioctl_fd ≠ -1 then
    let ms_str := ioctl d1.ioctl_fd
    if ms_str.result = -1 then (-1, d1)
    else if ms_str.lba > 100 then (1, fixupLeadout ms_str.lba i_tracks d1)
    else (0, d1)
  else (0, d1)

/-- Start sector of track index `j` in a drive. -/
def startOf (d : cdrom_drive_t) (j : Nat) : Int := (d.disc_toc j).dwStartSector

/-- A table given by the list of its first entries, `(bFlags, dwStartSector)`;
entries beyond the list are zero. -/
def tocOfList (l : List (Nat × Int)) : Nat → TOC :=
  fun i => match l.get? i with
    | some (f, s) => { bFlags := f, bTrack := i + 1, dwStartSector := s }
    | none => { bFlags := 0, bTrack := i + 1, dwStartSector := 0 }

/-- A drive with the given descriptor and table. -/
def driveOfList (fd : Int) (l : List (Nat × Int)) : cdrom_drive_t :=
  { ioctl_fd := fd, tracks := l.length, bigendianp := 0, disc_toc := tocOfList l }

/-- The start sectors of the first `n` entries. -/
def startsOf (d : cdrom_drive_t) (n : Nat) : List Int :=
  (List.range n).map (startOf d)

/-- Non-negative and non-decreasing start sectors on the first `n` entries. -/
def SortedTOC (n : Nat) (toc : Nat → TOC) : Prop :=
  (∀ j, j < n → 0 ≤ (toc j).dwStartSector) ∧
  (∀ j, j + 1 < n → (toc j).dwStartSector ≤ (toc (j + 1)).dwStartSector)

/-- The running maximum of a sequence. -/
def runMax (r : Nat → Int) : Nat → Int
  | 0 => r 0
  | j + 1 => max (runMax r j) (r (j + 1))

/-- Track `j` is the boundary the backward loop of `FixupTOC` stops at: the
largest index `j` with `0 < j < n` whose track is not audio while track `j-1`
is audio. -/
def IsLastBoundary (d : cdrom_drive_t) (n j : Nat) : Prop :=
  0 < j ∧ j < n ∧ IS_AUDIO d j = false ∧ IS_AUDIO d (j - 1) = true ∧
  ∀ k, j < k → k < n → ¬ ( IS_AUDIO d k = false ∧ IS_AUDIO d (k - 1) = true)

/-- A multisession query that fails. -/
def ioctlFails : Int → ms_query := fun _ => { result := -1, lba := 0 }

/-- A multisession query that succeeds and reports the lead-out address `lba`. -/
def ioctlReports (lba : Int) : Int → ms_query := fun _ => { result := 0, lba := lba }

/-- Two audio tracks followed by two data tracks, with descriptor 3. -/
def mixedDisc : cdrom_drive_t :=
  driveOfList 3 [(0, 0), (0, 5000), (4, 12000), (4, 13000)]

/-- A damaged table: a negative start and starts out of order, no descriptor. -/
def damagedDisc : cdrom_drive_t :=
  driveOfList (-1) [(0, 5), (0, -3), (0, 4), (0, 2)]

/-! ## Data model of the extraction examples (`example/isofile.c` and siblings) -/

/-- Modelled from the spec: the constant `ISO_BLOCKSIZE` of `cdio/iso9660.h` is
not among the sources; filesystem data blocks have 2048 bytes (spec,
sections 3 and 6). -/
def ISO_BLOCKSIZE : Nat := 2048

/-- The macro `CEILING(x, y)` of `isofile.c`: `((x+(y-1))/y)`. -/
def CEILING (x y : Nat) : Nat := (x + (y - 1)) / y

/-- One extent of a file (`iso9660_extent_descr_t`): first block and byte
count. -/
structure iso9660_extent_descr_t where
  lsn : Int
  size : Nat
deriving DecidableEq

/-- The type of a stat record (`iso9660_statv2_get_type`): file or directory. -/
inductive stat_type where
  | file
  | directory
deriving DecidableEq

/-- What the examples and the test read from a stat record: the extent list
(`iso9660_statv2_get_extents`), the total size
(`iso9660_statv2_get_total_size`), the type (`iso9660_statv2_get_type`) and
the gap flag (`iso9660_statv2_has_extent_gaps`). -/
structure iso9660_statv2_t where
  extents : List iso9660_extent_descr_t
  total_size : Nat
  type : stat_type
  has_extent_gaps : Bool
deriving DecidableEq

/-- What the extraction has done to the outside world: the LSNs passed to
`iso9660_iso_seek_read` in call order, the bytes handed to `fwrite` in order,
the number of `fwrite` calls, and the LSN named in the read-error message. -/
structure xfer_state where
  reads : List Int
  out : List UInt8
  nwrites : Nat
  err_lsn : Option Int
deriving DecidableEq

/-- Nothing read, nothing written. -/
def xfer_state.init : xfer_state :=
  { reads := [], out := [], nwrites := 0, err_lsn := none }

/-- The loop `while (to_write > 0) { ... }` that both branches of `isofile.c`
(lines 156-175 and 192-213) and the loops of the sibling examples share.

* `src lsn` are the bytes that `iso9660_iso_seek_read (p_iso, buf, lsn, 1)`
  delivers; the call returns their number, and the read counts as failed
  unless that number is `ISO_BLOCKSIZE` (exit code 4).
* `ferror k` tells whether the error indicator of the output stream is set
  after the `k`-th call of `fwrite` (counted from 0) (exit code 5).
* The first component of the result is the exit code of `my_exit`, or `none`
  when the loop ends normally.

The first argument bounds the number of iterations; every call below passes
`to_write` itself, which suffices because each iteration writes at least one
byte (`copyLoop_fuel`).  `to_write -= write_now` cannot wrap because
`write_now <= to_write`; `lsn++` is taken in the integers (an image has far
fewer than `2^31` blocks). -/
def copyLoop (src : Int → List UInt8) (ferror : Nat → Bool) :
    Nat → Nat → Int → xfer_state → Option Nat × xfer_state
  | 0, _, _, st => (none, st)
  | fuel + 1, to_write, lsn, st =>
    if to_write > 0 then
      let buf := src lsn
      if ISO_BLOCKSIZE ≠ buf.length then
        (some 4, { st with reads := st.reads ++ [lsn], err_lsn := some lsn })
      else
        let write_now := if to_write > ISO_BLOCKSIZE then ISO_BLOCKSIZE else to_write
        let st2 : xfer_state :=
          { st with reads := st.reads ++ [lsn], out := st.out ++ buf.take write_now,
                    nwrites := st.nwrites + 1 }
        if ferror st.nwrites then (some 5, st2)
        else copyLoop src ferror fuel (to_write - write_now) (lsn + 1) st2
    else (none, st)

/-- The `while` loop entered with `to_write` bytes to copy from block `lsn`. -/
def copyFile (src : Int → List UInt8) (ferror : Nat → Bool)
    (to_write : Nat) (lsn : Int) (st : xfer_state) : Option Nat × xfer_state :=
  copyLoop src ferror to_write to_write lsn st

/-- The loop `for (j = 0; j < num_extents; j++)` of the gap branch of
`isofile.c` (lines 186-214), which is also the whole copy loop of
`isofile2.c`, `isofile.cpp` and `OO/isofile2.cpp`. -/
def copyExtents (src : Int → List UInt8) (ferror : Nat → Bool) :
    List iso9660_extent_descr_t → xfer_state → Option Nat × xfer_state
  | [], st => (none, st)
  | e :: es, st =>
    match copyFile src ferror e.size e.lsn st with
    | (some rc, st1) => (some rc, st1)
    | (none, st1) => copyExtents src ferror es st1

/-- The exit code of the program once the copy loops are done: the code of the
`my_exit` taken inside a loop, else the final `my_exit(0)`. -/
def finish (r : Option Nat × xfer_state) : Nat × xfer_state :=
  match r with
  | (some rc, st) => (rc, st)
  | (none, st) => (0, st)

/-- The branch of `isofile.c` taken when the file has no extent gaps
(lines 150-175): one sweep of `total_size` bytes from `extents[0].lsn`.  The C
code reads `extents[0]` unconditionally; for an empty list the embedding
starts at block 0. -/
def contiguousBranch (src : Int → List UInt8) (ferror : Nat → Bool)
    (p_statbuf : iso9660_statv2_t) : Nat × xfer_state :=
  let lsn : Int := match p_statbuf.extents with
    | [] => 0
    | e :: _ => e.lsn
  finish (copyFile src ferror p_statbuf.total_size lsn xfer_state.init)

/-- The branch of `isofile.c` taken when the file has extent gaps
(lines 186-214), and the copy loop of the sibling examples. -/
def gapBranch (src : Int → List UInt8) (ferror : Nat → Bool)
    (p_statbuf : iso9660_statv2_t) : Nat × xfer_state :=
  finish (copyExtents src ferror p_statbuf.extents xfer_state.init)

/-- The extraction of `isofile.c` from line 127 on: exit code and effects. -/
def isofile_extract (src : Int → List UInt8) (ferror : Nat → Bool)
    (p_statbuf : iso9660_statv2_t) : Nat × xfer_state :=
  if !p_statbuf.has_extent_gaps then contiguousBranch src ferror p_statbuf
  else gapBranch src ferror p_statbuf

/-- The read of block `lsn` succeeds. -/
def readOk (src : Int → List UInt8) (lsn : Int) : Prop :=
  (src lsn).length = ISO_BLOCKSIZE

instance (src : Int → List UInt8) (lsn : Int) : Decidable (readOk src lsn) := by
  unfold readOk
  exact inferInstance

/-- The blocks `lsn, lsn+1, ..., lsn+k-1`. -/
def blockRun (lsn : Int) (k : Nat) : List Int :=
  (List.range k).map (fun (i : Nat) => lsn + (i : Int))

/-- The blocks an extent occupies: `ceil(size / 2048)` blocks from its LSN. -/
def extentLsns (e : iso9660_extent_descr_t) : List Int :=
  blockRun e.lsn (CEILING e.size ISO_BLOCKSIZE)

/-- The content of an extent: the first `size` bytes of its blocks. -/
def extentBytes (src : Int → List UInt8) (e : iso9660_extent_descr_t) : List UInt8 :=
  (((extentLsns e).map src).flatten).take e.size

/-- The blocks of all extents, in list order. -/
def requiredLsns (extents : List iso9660_extent_descr_t) : List Int :=
  (extents.map extentLsns).flatten

/-- The sum of the extent sizes. -/
def sumSizes (extents : List iso9660_extent_descr_t) : Nat :=
  (extents.map (fun e => e.size)).sum

/-- No extent gaps: each extent ends exactly where the next one begins,
`extent[i].lsn * 2048 + extent[i].size = extent[i+1].lsn * 2048`. -/
def NoGaps : List iso9660_extent_descr_t → Prop
  | [] => True
  | [_] => True
  | e :: e2 :: es =>
    e.lsn * (ISO_BLOCKSIZE : Int) + (e.size : Int) = e2.lsn * (ISO_BLOCKSIZE : Int) ∧
    NoGaps (e2 :: es)

/-- The blocks the extraction of `isofile.c` needs: those of the single sweep
when the record has no gaps, those of all extents otherwise. -/
def neededLsns (p_statbuf : iso9660_statv2_t) : List Int :=
  if !p_statbuf.has_extent_gaps then
    blockRun (match p_statbuf.extents with | [] => 0 | e :: _ => e.lsn)
      (CEILING p_statbuf.total_size ISO_BLOCKSIZE)
  else requiredLsns p_statbuf.extents

/-- The number of bytes the extraction of `isofile.c` has to emit. -/
def neededBytes (p_statbuf : iso9660_statv2_t) : Nat :=
  if !p_statbuf.has_extent_gaps then p_statbuf.total_size else sumSizes p_statbuf.extents

/-- A block source in which every block reads and block `l` is filled with
the byte `l mod 256`. -/
def goodSource : Int → List UInt8 :=
  fun l => List.replicate ISO_BLOCKSIZE (UInt8.ofNat l.toNat)

/-- A block source on which only the blocks below `bad` read. -/
def sourceUpTo (bad : Int) : Int → List UInt8 :=
  fun l => if l < bad then goodSource l else []

/-- An output stream that never fails. -/
def noFerror : Nat → Bool := fun _ => false

/-- The file of the concrete scenario: extents `{100, 2048}` and `{105, 1024}`. -/
def copyingStat : iso9660_statv2_t :=
  { extents := [{ lsn := 100, size := 2048 }, { lsn := 105, size := 1024 }],
    total_size := 3072, type := stat_type.file, has_extent_gaps := true }

/-- A contiguous file of two extents: `{100, 4096}` and `{102, 1000}`. -/
def contiguousStat : iso9660_statv2_t :=
  { extents := [{ lsn := 100, size := 4096 }, { lsn := 102, size := 1000 }],
    total_size := 5096, type := stat_type.file, has_extent_gaps := false }

/-! ### The schedule of a copy: auxiliary definitions for the proofs

A schedule lists the transfers of a copy in order, each a block and the
number of its leading bytes to emit.  The loops above are shown to execute
exactly their schedule (`copyFile_eq_runPlan`, `copyExtents_eq_runPlan`). -/

/-- The schedule of `k` transfers for `to_write` bytes from block `lsn`. -/
def filePlanAux : Nat → Int → Nat → List (Int × Nat)
  | 0, _, _ => []
  | k + 1, lsn, to_write =>
    (lsn, min ISO_BLOCKSIZE to_write) ::
      filePlanAux k (lsn + 1) (to_write - min ISO_BLOCKSIZE to_write)

/-- The schedule of one sweep: `ceil(to_write / 2048)` transfers. -/
def filePlan (lsn : Int) (to_write : Nat) : List (Int × Nat) :=
  filePlanAux (CEILING to_write ISO_BLOCKSIZE) lsn to_write

/-- The schedule of a per-extent copy: the sweeps of the extents in list order. -/
def extentsPlan (extents : List iso9660_extent_descr_t) : List (Int × Nat) :=
  (extents.map (fun e => filePlan e.lsn e.size)).flatten

/-- Execute a schedule: read each block, stop with code 4 at the first read
that fails, hand the leading bytes to `fwrite`, stop with code 5 when the
stream reports an error. -/
def runPlan (src : Int → List UInt8) (ferror : Nat → Bool) :
    List (Int × Nat) → xfer_state → Option Nat × xfer_state
  | [], st => (none, st)
  | (lsn, n) :: p, st =>
    if ISO_BLOCKSIZE ≠ (src lsn).length then
      (some 4, { st with reads := st.reads ++ [lsn], err_lsn := some lsn })
    else if ferror st.nwrites then
      (some 5, { st with reads := st.reads ++ [lsn], out := st.out ++ (src lsn).take n,
                         nwrites := st.nwrites + 1 })
    else
      runPlan src ferror p
        { st with reads := st.reads ++ [lsn], out := st.out ++ (src lsn).take n,
                  nwrites := st.nwrites + 1 }

/-- The schedule of the extraction of `isofile.c`. -/
def neededPlan (p_statbuf : iso9660_statv2_t) : List (Int × Nat) :=
  if !p_statbuf.has_extent_gaps then
    filePlan (match p_statbuf.extents with | [] => 0 | e :: _ => e.lsn) p_statbuf.total_size
  else extentsPlan p_statbuf.extents

/-- The bytes a schedule emits when it runs to its end. -/
def planBytes (src : Int → List UInt8) (p : List (Int × Nat)) : List UInt8 :=
  (p.map (fun s => (src s.1).take s.2)).flatten

/-- The content of a file: the contents of its extents in list order. -/
def extentsBytes (src : Int → List UInt8) (extents : List iso9660_extent_descr_t) :
    List UInt8 :=
  (extents.map (extentBytes src)).flatten

/-! ## Data model of `data_bigendianp` -/

/-- Modelled from the spec: the constant `CDIO_CD_FRAMESIZE_RAW` of
`cdio/sector.h` is not among the sources; raw audio frames have 2352 bytes
(spec, section 6). -/
def CDIO_CD_FRAMESIZE_RAW : Nat := 2352

/-- The arithmetic of C `float` that `data_bigendianp` uses on energies and
votes, kept abstract: the constant 0, `+`, `/`, `<` and `==`.  The only law
assumed is that no value is less than itself, which holds for IEEE floats
(not-a-number included). -/
structure float_ops (F : Type) where
  zero : F
  add : F → F → F
  div : F → F → F
  lt : F → F → Bool
  eq : F → F → Bool
  lt_irrefl : ∀ x, lt x x = false

/-- What `data_bigendianp` calls but does not define.

* `cdda_track_audiop`, `cdda_track_firstsector`, `cdda_track_lastsector`:
  the track queries, given the drive and the track number;
* `read_audio d buff firstsector readsectors`: the drive's read function;
  it returns the number of sectors read (failure when not positive) and the
  buffer of 16-bit samples afterwards;
* `lsb_energy buff beginsec`, `msb_energy buff beginsec`: the sums of the
  absolute Fourier coefficients (`fft_forward` of `smallft`) of the 2 x 128
  samples at `buff[beginsec+460 ..]`, read as little-endian and as big-endian;
* `bigendianp`: the platform default `bigendianp()`. -/
structure audio_env (F : Type) where
  fl : float_ops F
  cdda_track_audiop : cdrom_drive_t → Nat → Int
  cdda_track_firstsector : cdrom_drive_t → Nat → Int
  cdda_track_lastsector : cdrom_drive_t → Nat → Int
  read_audio : cdrom_drive_t → (Nat → Int) → Int → Int → Int × (Nat → Int)
  lsb_energy : (Nat → Int) → Nat → F
  msb_energy : (Nat → Int) → Nat → F
  bigendianp : Int

/-- The calls `data_bigendianp` makes through the drive's function pointers:
`d->enable_cdda(d, onoff)` and `d->read_audio(d, buff, sector, sectors)` with
the value it returned. -/
inductive drive_event where
  | enable_cdda (onoff : Int)
  | read_audio (sector : Int) (sectors : Int) (ret : Int)
deriving DecidableEq

/-- The two `for` loops of lines 108-117: the first `beginsec < 5` such that
one of the samples `buff[beginsec*2352/2 + j]`, `460 <= j < 588`, is not zero;
`none` when the loops end without clearing `zeroflag` (then `beginsec` is 5). -/
def findWindow (buff : Nat → Int) : Option Nat :=
  (List.range 5).find? (fun beginsec =>
    (List.range' 460 128).any (fun j => buff (beginsec * CDIO_CD_FRAMESIZE_RAW / 2 + j) != 0))

/-- How the search for a non-silent window of one track ends. -/
inductive window_result where
  | failed (buff : Nat → Int) (events : List drive_event)
  | done (zeroflag : Int) (beginsec : Nat) (buff : Nat → Int) (events : List drive_event)

/-- The loop `while(firstsector+readsectors<=lastsector)` of lines 102-127,
with `readsectors = 5`.  A read that does not return a positive count ends
the whole detection: `enable_cdda(d,0)` is called and the search has failed.
The first argument bounds the number of iterations (`scanWindow_fuel`); the
sector arithmetic is that of C `long`, taken in the integers. -/
def scanWindow {F : Type} (env : audio_env F) (d : cdrom_drive_t) :
    Nat → Int → Int → Nat → (Nat → Int) → List drive_event → window_result
  | 0, _, _, beginsec, buff, events => window_result.done (-1) beginsec buff events
  | fuel + 1, firstsector, lastsector, beginsec, buff, events =>
    if firstsector + 5 ≤ lastsector then
      let r := env.read_audio d buff firstsector 5
      let events1 := events ++ [drive_event.read_audio firstsector 5 r.1]
      if r.1 > 0 then
        match findWindow r.2 with
        | some b => window_result.done 0 b r.2 events1
        | none => scanWindow env d fuel (firstsector + 5) lastsector 5 r.2 events1
      else window_result.failed r.2 (events1 ++ [drive_event.enable_cdda 0])
    else window_result.done (-1) beginsec buff events

/-- The locals of `data_bigendianp` that live across tracks, the sample
buffer and the calls made so far. -/
structure vote_state (F : Type) where
  lsb_votes : F
  msb_votes : F
  checked : Nat
  buff : Nat → Int
  events : List drive_event

/-- Lines 157-164: the vote of a track with energies `lsb_energy`,
`msb_energy`. -/
def castVote {F : Type} (fl : float_ops F) (st : vote_state F) (lsb_energy msb_energy : F) :
    vote_state F :=
  if fl.lt lsb_energy msb_energy then
    { st with lsb_votes := fl.add st.lsb_votes (fl.div msb_energy lsb_energy),
              checked := st.checked + 1 }
  else if fl.lt msb_energy lsb_energy then
    { st with msb_votes := fl.add st.msb_votes (fl.div lsb_energy msb_energy),
              checked := st.checked + 1 }
  else st

/-- The body of the track loop up to the vote (lines 92-156) for track index
`i`: the energies of the track, or failure.  A track that is not audio, too
short, or silent throughout has both energies 0. -/
def trackEnergy {F : Type} (env : audio_env F) (d : cdrom_drive_t) (i : Nat)
    (st : vote_state F) : Option (F × F) × vote_state F :=
  if env.cdda_track_audiop d (i + 1) = 1 then
    let firstsector := env.cdda_track_firstsector d (i + 1)
    let lastsector := env.cdda_track_lastsector d (i + 1)
    match scanWindow env d (lastsector - firstsector).toNat firstsector lastsector 0
        st.buff st.events with
    | window_result.failed buff events => (none, { st with buff := buff, events := events })
    | window_result.done zeroflag beginsec buff events =>
      let beginsec := beginsec * (CDIO_CD_FRAMESIZE_RAW / 2)
      if zeroflag = 0 then
        (some (env.lsb_energy buff beginsec, env.msb_energy buff beginsec),
          { st with buff := buff, events := events })
      else (some (env.fl.zero, env.fl.zero), { st with buff := buff, events := events })
  else (some (env.fl.zero, env.fl.zero), st)

/-- The track loop `for(i=0,checked=0;i<d->tracks;i++)` over the track
indices still to visit.  The flag of the result tells whether the function has
returned -1 from inside the loop (line 125). -/
def scanTracks {F : Type} (env : audio_env F) (d : cdrom_drive_t) :
    List Nat → vote_state F → Bool × vote_state F
  | [], st => (false, st)
  | i :: rest, st =>
    match trackEnergy env d i st with
    | (none, st1) => (true, st1)
    | (some (lsb_energy, msb_energy), st1) =>
      let st2 := castVote env.fl st1 lsb_energy msb_energy
      if st2.checked = 5 ∧
          (env.fl.eq st2.lsb_votes env.fl.zero || env.fl.eq st2.msb_votes env.fl.zero) then
        (false, st2)
      else scanTracks env d rest st2

/-- What `data_bigendianp` leaves behind: the value returned, the drive, the
final values of `lsb_votes`, `msb_votes` and `checked`, and the calls made. -/
structure bigendian_result (F : Type) where
  ret : Int
  drive : cdrom_drive_t
  lsb_votes : F
  msb_votes : F
  checked : Nat
  events : List drive_event

/-- The locals on entry to the track loop: no votes, nothing checked, and
`enable_cdda(d,1)` called. -/
def initVotes {F : Type} (env : audio_env F) (buff0 : Nat → Int) : vote_state F :=
  { lsb_votes := env.fl.zero, msb_votes := env.fl.zero, checked := 0, buff := buff0,
    events := [drive_event.enable_cdda 1] }

/-- The function `data_bigendianp(d)`; `buff0` is the content of the freshly
allocated sample buffer. -/
def data_bigendianp {F : Type} (env : audio_env F) (d : cdrom_drive_t) (buff0 : Nat → Int) :
    bigendian_result F :=
  let endiancache := d.bigendianp
  let d1 : cdrom_drive_t := { d with bigendianp := -1 }
  match scanTracks env d1 (List.range d1.tracks) (initVotes env buff0) with
  | (true, st) =>
    { ret := -1, drive := d1, lsb_votes := st.lsb_votes, msb_votes := st.msb_votes,
      checked := st.checked, events := st.events }
  | (false, st) =>
    { ret := if env.fl.lt st.msb_votes st.lsb_votes then 0
             else if env.fl.lt st.lsb_votes st.msb_votes then 1
             else env.bigendianp,
      drive := { d1 with bigendianp := endiancache },
      lsb_votes := st.lsb_votes, msb_votes := st.msb_votes, checked := st.checked,
      events := st.events ++ [drive_event.enable_cdda 0] }

/-- The event is an audio read that returned a positive count. -/
def goodRead (e : drive_event) : Prop :=
  ∃ sector sectors ret, e = drive_event.read_audio sector sectors ret ∧ ret > 0

/-- Integers as a stand-in for `float` in concrete runs, where every quotient
taken is exact. -/
def intOps : float_ops Int :=
  { zero := 0, add := fun x y => x + y, div := fun x y => x / y,
    lt := fun x y => decide (x < y), eq := fun x y => decide (x = y),
    lt_irrefl := fun x => by simp }

/-- A test drive environment: the tracks listed in `audio` are audio, track
`t` spans sectors `1000 t .. 1000 t + 999`, reads of sectors below `bad`
succeed and fill the buffer with the constant sample 1, and a window has
little-endian energy `lsb` and big-endian energy `msb`. -/
def testEnv (audio : List Nat) (bad : Int) (lsb msb : Int) (dflt : Int) : audio_env Int :=
  { fl := intOps,
    cdda_track_audiop := fun _ t => if t ∈ audio then 1 else 0,
    cdda_track_firstsector := fun _ t => 1000 * (t : Int),
    cdda_track_lastsector := fun _ t => 1000 * (t : Int) + 999,
    read_audio := fun _ buff s n => if s < bad then (n, fun _ => 1) else (-1, buff),
    lsb_energy := fun _ _ => lsb,
    msb_energy := fun _ _ => msb,
    bigendianp := dflt }

/-- A drive with `n` tracks and byte-order setting `be`. -/
def testDrive (n : Nat) (be : Int) : cdrom_drive_t :=
  { ioctl_fd := -1, tracks := n, bigendianp := be, disc_toc := tocOfList [] }

/-- From `ev0` to `ev` only audio reads that succeeded were added. -/
def GoodTrace (ev0 ev : List drive_event) : Prop :=
  ∃ new, ev = ev0 ++ new ∧ ∀ x ∈ new, goodRead x

/-- From `ev0` to `ev` some audio reads that succeeded were added, then one
read that failed, then the call `enable_cdda(d,0)`. -/
def AbortTrace (ev0 ev : List drive_event) : Prop :=
  ∃ pre sector sectors ret,
    ev = ev0 ++ pre ++ [drive_event.read_audio sector sectors ret, drive_event.enable_cdda 0] ∧
    ret ≤ 0 ∧ ∀ x ∈ pre, goodRead x

/-! ## The filesystem accessor

The lookups `iso9660_ifs_statv2`, `iso9660_ifs_find_lsn_v2` and
`iso9660_ifs_find_lsn_with_path_v2` are called by `test/testisocd2.c` but
defined in the library, which is not among the sources; they are modelled
from section 4.1 of the specification. -/

/-- Modelled from the spec: the directory records of a directory, in the
order of the directory.  A record has a name and a stat record; `sub` are the
records of the directory it denotes (none for a file), `rest` the records
that follow it in its own directory. -/
inductive iso_dir where
  | nil : iso_dir
  | entry (name : String) (stat : iso9660_statv2_t) (sub : iso_dir) (rest : iso_dir) : iso_dir

/-- Modelled from the spec: an open image (`iso9660_t`), as far as the lookups
see it: the root directory record of the primary volume descriptor, and the
directory records found by reading the root directory. -/
structure iso9660_t where
  root : iso9660_statv2_t
  records : iso_dir

/-- Modelled from the spec: matching one path component, the first record of a
directory with the given name. -/
def lookupName (name : String) : iso_dir → Option (iso9660_statv2_t × iso_dir)
  | iso_dir.nil => none
  | iso_dir.entry n stat sub rest =>
    if n = name then some (stat, sub) else lookupName name rest

/-- Modelled from the spec: the walk of the components of a path through the
directory records. -/
def walkPath : List String → iso_dir → Option iso9660_statv2_t
  | [], _ => none
  | [c], dir => (lookupName c dir).map Prod.fst
  | c :: c2 :: cs, dir =>
    match lookupName c dir with
    | none => none
    | some (_, sub) => walkPath (c2 :: cs) sub

/-- Modelled from the spec: `stat(path)` (`iso9660_ifs_statv2`), which "walks
directory records beginning at the root extent, matching path components".
The path is the list of its components; the empty list is `"/"`, answered
from the primary volume descriptor alone, and `["."]` is `"/."`, answered by
reading the root directory. -/
def iso9660_ifs_statv2 (p_iso : iso9660_t) (path : List String) : Option iso9660_statv2_t :=
  match path with
  | [] => some p_iso.root
  | c :: cs => walkPath (c :: cs) p_iso.records

/-- Modelled from the spec: an extent of the record "contains `lsn`", one of
the `ceil(size / 2048)` blocks from its LSN on. -/
def ownsLsn (stat : iso9660_statv2_t) (lsn : Int) : Bool :=
  stat.extents.any (fun e =>
    decide (e.lsn ≤ lsn) && decide (lsn < e.lsn + (CEILING e.size ISO_BLOCKSIZE : Nat)))

/-- Modelled from the spec: the stat records of all directory records below a
directory: each record, then the records of its subdirectory, then the
records that follow it. -/
def listStats : iso_dir → List iso9660_statv2_t
  | iso_dir.nil => []
  | iso_dir.entry _ stat sub rest => stat :: (listStats sub ++ listStats rest)

/-- Modelled from the spec: the same traversal, each record with its path. -/
def listRecords (pre : List String) : iso_dir → List (iso9660_statv2_t × List String)
  | iso_dir.nil => []
  | iso_dir.entry n stat sub rest =>
    (stat, pre ++ [n]) :: (listRecords (pre ++ [n]) sub ++ listRecords pre rest)

/-- Modelled from the spec: `find_by_lsn(lsn)` (`iso9660_ifs_find_lsn_v2`):
"determine which file/directory owns it and return its full stat record, by
resolving via whichever extent in its list contains `lsn`".  The spec does not
fix the order in which directory records are tried; the traversal of
`listStats` is used, and the first owner found is returned. -/
def iso9660_ifs_find_lsn_v2 (p_iso : iso9660_t) (lsn : Int) : Option iso9660_statv2_t :=
  (listStats p_iso.records).find? (fun stat => ownsLsn stat lsn)

/-- Modelled from the spec: `find_by_lsn_with_path(lsn)`
(`iso9660_ifs_find_lsn_with_path_v2`): "as above plus the resolved path
string". -/
def iso9660_ifs_find_lsn_with_path_v2 (p_iso : iso9660_t) (lsn : Int) :
    Option (iso9660_statv2_t × List String) :=
  (listRecords [] p_iso.records).find? (fun r => ownsLsn r.1 lsn)

/-- The four values `testisocd2.c` compares (lines 125-129 and 137-141):
number of extents, LSN of the first extent, total size and type. -/
def statAgree (a b : iso9660_statv2_t) : Prop :=
  a.extents.length = b.extents.length ∧
  a.extents.head?.map (fun e => e.lsn) = b.extents.head?.map (fun e => e.lsn) ∧
  a.total_size = b.total_size ∧
  a.type = b.type

instance (a b : iso9660_statv2_t) : Decidable (statAgree a b) := by
  unfold statAgree
  exact inferInstance

/-- A file record with the given extents (as pairs of LSN and size). -/
def fileStat (exts : List (Int × Nat)) : iso9660_statv2_t :=
  { extents := exts.map (fun p => { lsn := p.1, size := p.2 }),
    total_size := (exts.map (fun p => p.2)).sum,
    type := stat_type.file, has_extent_gaps := false }

/-- A directory record of one extent. -/
def dirStat (lsn : Int) (size : Nat) : iso9660_statv2_t :=
  { extents := [{ lsn := lsn, size := size }], total_size := size,
    type := stat_type.directory, has_extent_gaps := false }

/-- An image whose root directory (block 20) holds `.`, a file `A` in block
100 and an empty file `B` that is given the same block 100. -/
def sharedBlockImage : iso9660_t :=
  { root := dirStat 20 2048,
    records :=
      iso_dir.entry "." (dirStat 20 2048) iso_dir.nil
        (iso_dir.entry "A" (fileStat [(100, 2048)]) iso_dir.nil
          (iso_dir.entry "B" (fileStat [(100, 0)]) iso_dir.nil iso_dir.nil)) }

/-- An image whose root directory (block 20) holds `.`, a subdirectory `D`
(block 21) and in it the file `F` of two extents, blocks 100 and 105. -/
def plainImage : iso9660_t :=
  { root := dirStat 20 2048,
    records :=
      iso_dir.entry "." (dirStat 20 2048) iso_dir.nil
        (iso_dir.entry "D" (dirStat 21 2048)
          (iso_dir.entry "F" (fileStat [(100, 2048), (105, 1024)]) iso_dir.nil iso_dir.nil)
          iso_dir.nil) }

/-- An image in which two files claim block 101: `A` has blocks 100 and 101,
`C` has block 101. -/
def overlapImage : iso9660_t :=
  { root := dirStat 20 2048,
    records :=
      iso_dir.entry "." (dirStat 20 2048) iso_dir.nil
        (iso_dir.entry "A" (fileStat [(100, 4096)]) iso_dir.nil
          (iso_dir.entry "C" (fileStat [(101, 2048)]) iso_dir.nil iso_dir.nil)) }

/-- A directory record of two extents, blocks 20 and 30. -/
def continuedRootStat : iso9660_statv2_t :=
  { extents := [{ lsn := 20, size := 2048 }, { lsn := 30, size := 2048 }],
    total_size := 4096, type := stat_type.directory, has_extent_gaps := true }

/-- An image whose root directory has a second extent that only the scan of
the directory finds: the primary volume descriptor lists one extent, the
record `.` two. -/
def continuedRootImage : iso9660_t :=
  { root := dirStat 20 2048,
    records := iso_dir.entry "." continuedRootStat iso_dir.nil iso_dir.nil }

/-! ## Data model of `atapi_drive_info` -/

/-- Outcome of `ioctl(fd, HDIO_GET_IDENTITY, id)`: the value the call
returns, the bytes of the member `id->model` afterwards (a character array of
40 bytes in `struct hd_driveid`), and the bytes that follow that member in the
buffer of 512 bytes, up to the end of the buffer. -/
structure identity_query where
  result : Int
  model : List Char
  after : List Char

/-- The NUL character that ends a C string. -/
def NUL : Char := Char.ofNat 0

/-- The bytes before the first NUL. -/
def cString (bytes : List Char) : String :=
  String.mk (bytes.takeWhile (fun c => c != NUL))

/-- The call `strdup(p)` on the memory that starts at `p` and ends with its
allocation: a copy of the bytes before the first NUL.  Without a NUL the read
runs past the end of the allocation, which is undefined behaviour and has no
result here.  That `strdup` may fail for lack of memory is not modelled. -/
def strdup (mem : List Char) : Option String :=
  if mem.contains NUL then some (cString mem) else none

/-- The model string of the drive: the characters of the 40-byte member
`id->model` before its first NUL, all of them when it holds none. -/
def modelString (id : identity_query) : String :=
  cString id.model

/-- The function `atapi_drive_info(fd)` (lines 51-69): the string returned.
The query succeeds when `ioctl` returns 0.  The test `id->model==0` compares
the address of an array member with the null pointer and is never true; the
test `id->model[0]==0` looks at the first byte.  The call `strdup(id->model)`
is given the address of the member and no length, so it reads on into the
bytes that follow the member until it meets a NUL. -/
def atapi_drive_info (ioctl : Int → identity_query) (fd : Int) : Option String :=
  let id := ioctl fd
  if id.result = 0 then
    if (id.model ++ id.after).headD NUL = NUL then
      some "Generic Unidentifiable ATAPI CDROM"
    else strdup (id.model ++ id.after)
  else some "Generic Unidentifiable CDROM"

/-- A drive that answers the identification query with the given model name,
padded with NUL bytes to the 40 bytes of the member; the bytes after the
member are `after`. -/
def identifies (name : String) (after : List Char) : Int → identity_query :=
  fun _ => { result := 0,
             model := name.toList ++ List.replicate (40 - name.length) NUL,
             after := after }

/-- A drive that answers the identification query with the given model name
padded with blanks to the 40 bytes of the member, as identification data
stores it; the bytes after the member are `after`. -/
def identifiesPadded (name : String) (after : List Char) : Int → identity_query :=
  fun _ => { result := 0,
             model := name.toList ++ List.replicate (40 - name.length) ' ',
             after := after }

/-- A drive that does not answer the identification query. -/
def identifyFails : Int → identity_query :=
  fun _ => { result := -1, model := List.replicate 40 NUL, after := [] }

/-! ## Passes 1 and 2 of the sanitizer, as the specification words them -/

/-- Pass 1 of the specification at track `j`: "any track with a negative
start sector is forced to 0". -/
def clampStep (toc : Nat → TOC) (j : Nat) : Nat → TOC :=
  if (toc j).dwStartSector < 0 then setStart toc j 0 else toc

/-- Pass 1 of the specification over all `n` tracks. -/
def clampAll (n : Nat) (toc : Nat → TOC) : Nat → TOC :=
  (List.range n).foldl clampStep toc

/-- Pass 2 of the specification at track `j`: "if track i's start is greater
than track i+1's start, track i's start is forced to 0", for `j < n-1`. -/
def localRepairStep (n : Nat) (toc : Nat → TOC) (j : Nat) : Nat → TOC :=
  if (j : Int) < (n : Int) - 1 ∧ (toc j).dwStartSector > (toc (j + 1)).dwStartSector then
    setStart toc j 0
  else toc

/-- Pass 2 of the specification as a forward walk over the tracks. -/
def localRepair (n : Nat) (toc : Nat → TOC) : Nat → TOC :=
  (List.range n).foldl (localRepairStep n) toc

/-- The damaged table with a descriptor: starts `5, -3, 4, 2`, descriptor 3. -/
def damagedDiscFd : cdrom_drive_t :=
  driveOfList 3 [(0, 5), (0, -3), (0, 4), (0, 2)]

/-! ## The early stop of the track loop: auxiliary definitions -/

/-- The test of line 166, `checked==5 && (lsb_votes==0 || msb_votes==0)`, on
the locals after the vote of a track. -/
def stopNow {F : Type} (fl : float_ops F) (st : vote_state F) : Prop :=
  st.checked = 5 ∧ (fl.eq st.lsb_votes fl.zero || fl.eq st.msb_votes fl.zero) = true

/-- Five tracks are checked and both sides have votes, or more than five
tracks are checked. -/
def pastStop {F : Type} (fl : float_ops F) (st : vote_state F) : Prop :=
  5 < st.checked ∨
  (st.checked = 5 ∧ fl.eq st.lsb_votes fl.zero = false ∧ fl.eq st.msb_votes fl.zero = false)

/-- The track loop without the `break` of line 166: every track of the list
is visited, unless a read fails. -/
def scanTracksNoBreak {F : Type} (env : audio_env F) (d : cdrom_drive_t) :
    List Nat → vote_state F → Bool × vote_state F
  | [], st => (false, st)
  | i :: rest, st =>
    match trackEnergy env d i st with
    | (none, st1) => (true, st1)
    | (some (lsb_energy, msb_energy), st1) =>
      scanTracksNoBreak env d rest (castVote env.fl st1 lsb_energy msb_energy)

/-- A test drive environment in which all tracks are audio and every read
succeeds and fills the buffer with the number of the sector read; the track at
sector 1000 has little-endian energy 2 and big-endian energy 1, every other
track the reverse. -/
def mixedEnv : audio_env Int :=
  { fl := intOps,
    cdda_track_audiop := fun _ _ => 1,
    cdda_track_firstsector := fun _ t => 1000 * (t : Int),
    cdda_track_lastsector := fun _ t => 1000 * (t : Int) + 999,
    read_audio := fun _ _ s n => (n, fun _ => s),
    lsb_energy := fun buff _ => if buff 0 = 1000 then 2 else 1,
    msb_energy := fun buff _ => if buff 0 = 1000 then 1 else 2,
    bigendianp := 7 }

/-! # Theorems -/

/-! ## The two repair loops of `FixupTOC` -/

theorem setStart_start (toc : Nat → TOC) (j : Nat) (v : Int) (i : Nat) :
    (setStart toc j v i).dwStartSector = if i = j then v else (toc i).dwStartSector := by
  unfold setStart
  split <;> rfl

theorem setStart_bFlags (toc : Nat → TOC) (j : Nat) (v : Int) (i : Nat) :
    (setStart toc j v i).bFlags = (toc i).bFlags := by
  unfold setStart
  split <;> rfl

theorem setStart_bTrack (toc : Nat → TOC) (j : Nat) (v : Int) (i : Nat) :
    (setStart toc j v i).bTrack = (toc i).bTrack := by
  unfold setStart
  split <;> rfl

theorem setStart_other (toc : Nat → TOC) (j : Nat) (v : Int) (i : Nat) (h : i ≠ j) :
    setStart toc j v i = toc i := by
  unfold setStart
  simp [h]

theorem setStart_same (toc : Nat → TOC) (j : Nat) :
    setStart toc j (toc j).dwStartSector = toc := by
  funext i
  unfold setStart
  split
  · next h => subst h; rfl
  · rfl

theorem fixupClampStep_other (n : Nat) (toc : Nat → TOC) (j i : Nat) (h : i ≠ j) :
    fixupClampStep n toc j i = toc i := by
  unfold fixupClampStep
  split_ifs <;> simp [setStart_other, h]

theorem fixupClampStep_bFlags (n : Nat) (toc : Nat → TOC) (j i : Nat) :
    (fixupClampStep n toc j i).bFlags = (toc i).bFlags := by
  unfold fixupClampStep
  split_ifs <;> simp [setStart_bFlags]

theorem fixupClampStep_bTrack (n : Nat) (toc : Nat → TOC) (j i : Nat) :
    (fixupClampStep n toc j i).bTrack = (toc i).bTrack := by
  unfold fixupClampStep
  split_ifs <;> simp [setStart_bTrack]

theorem fixupClampStep_nonneg (n : Nat) (toc : Nat → TOC) (j : Nat) :
    0 ≤ (fixupClampStep n toc j j).dwStartSector := by
  unfold fixupClampStep
  split_ifs <;> (try simp only [setStart_start, if_true]) <;> omega

theorem fixupClampStep_id (n : Nat) (toc : Nat → TOC) (j : Nat)
    (h0 : 0 ≤ (toc j).dwStartSector)
    (h1 : j + 1 < n → (toc j).dwStartSector ≤ (toc (j + 1)).dwStartSector) :
    fixupClampStep n toc j = toc := by
  unfold fixupClampStep
  have hneg : ¬ (toc j).dwStartSector < 0 := by omega
  rw [if_neg hneg, if_neg]
  rintro ⟨hj, hgt⟩
  have := h1 (by omega)
  omega

theorem fixupClamp_aux (n : Nat) (toc : Nat → TOC) (k : Nat) :
    (∀ i, k ≤ i → (List.range k).foldl (fixupClampStep n) toc i = toc i) ∧
    (∀ i, i < k → 0 ≤ ((List.range k).foldl (fixupClampStep n) toc i).dwStartSector) ∧
    (∀ i, ((List.range k).foldl (fixupClampStep n) toc i).bFlags = (toc i).bFlags) ∧
    (∀ i, ((List.range k).foldl (fixupClampStep n) toc i).bTrack = (toc i).bTrack) := by
  induction k with
  | zero => simp
  | succ k ih =>
    obtain ⟨ih1, ih2, ih3, ih4⟩ := ih
    simp only [List.range_succ, List.foldl_append, List.foldl_cons, List.foldl_nil]
    refine ⟨?_, ?_, ?_, ?_⟩
    · intro i hi
      rw [fixupClampStep_other _ _ _ _ (by omega)]
      exact ih1 i (by omega)
    · intro i hi
      by_cases hik : i = k
      · subst hik
        exact fixupClampStep_nonneg _ _ _
      · rw [fixupClampStep_other _ _ _ _ hik]
        exact ih2 i (by omega)
    · intro i
      rw [fixupClampStep_bFlags]
      exact ih3 i
    · intro i
      rw [fixupClampStep_bTrack]
      exact ih4 i

theorem fixupClamp_id_aux (n : Nat) (toc : Nat → TOC) (h : SortedTOC n toc) (k : Nat)
    (hk : k ≤ n) : (List.range k).foldl (fixupClampStep n) toc = toc := by
  induction k with
  | zero => simp
  | succ k ih =>
    simp only [List.range_succ, List.foldl_append, List.foldl_cons, List.foldl_nil]
    rw [ih (by omega)]
    exact fixupClampStep_id n toc k (h.1 k (by omega)) (fun hlt => h.2 k hlt)

theorem runMax_ge (r : Nat → Int) (j : Nat) : r j ≤ runMax r j := by
  cases j with
  | zero => exact le_refl _
  | succ j => exact le_max_right _ _

theorem runMax_mono_succ (r : Nat → Int) (j : Nat) : runMax r j ≤ runMax r (j + 1) :=
  le_max_left _ _

theorem runMax_mono (r : Nat → Int) (i j : Nat) (h : i ≤ j) : runMax r i ≤ runMax r j := by
  induction j with
  | zero =>
    have : i = 0 := by omega
    subst this
    exact le_refl _
  | succ j ih =>
    by_cases hij : i = j + 1
    · subst hij
      exact le_refl _
    · exact le_trans (ih (by omega)) (runMax_mono_succ r j)

theorem runMax_of_sorted (r : Nat → Int) (n : Nat)
    (h : ∀ j, j + 1 < n → r j ≤ r (j + 1)) (j : Nat) (hj : j < n) : runMax r j = r j := by
  induction j with
  | zero => rfl
  | succ j ih =>
    have h1 := ih (by omega)
    have h2 := h j hj
    show max (runMax r j) (r (j + 1)) = r (j + 1)
    rw [h1]
    exact max_eq_right h2

theorem fixupRaise_aux (toc : Nat → TOC) (k : Nat) :
    ((List.range' 1 k).foldl fixupRaiseStep (toc, (toc 0).dwStartSector)).2 =
      (((List.range' 1 k).foldl fixupRaiseStep (toc, (toc 0).dwStartSector)).1 k).dwStartSector ∧
    (∀ i, i ≤ k →
      (((List.range' 1 k).foldl fixupRaiseStep (toc, (toc 0).dwStartSector)).1 i).dwStartSector
        = runMax (fun j => (toc j).dwStartSector) i) ∧
    (∀ i, k < i →
      ((List.range' 1 k).foldl fixupRaiseStep (toc, (toc 0).dwStartSector)).1 i = toc i) ∧
    (∀ i, (((List.range' 1 k).foldl fixupRaiseStep (toc, (toc 0).dwStartSector)).1 i).bFlags
        = (toc i).bFlags) ∧
    (∀ i, (((List.range' 1 k).foldl fixupRaiseStep (toc, (toc 0).dwStartSector)).1 i).bTrack
        = (toc i).bTrack) := by
  induction k with
  | zero =>
    refine ⟨rfl, ?_, ?_, ?_, ?_⟩
    · intro i hi
      have : i = 0 := by omega
      subst this
      rfl
    · intro i _
      rfl
    · intro i
      rfl
    · intro i
      rfl
  | succ k ih =>
    obtain ⟨ih1, ih2, ih3, ih4, ih5⟩ := ih
    simp only [List.range'_concat, List.foldl_append, List.foldl_cons, List.foldl_nil, Nat.one_mul]
    generalize (List.range' 1 k).foldl fixupRaiseStep (toc, (toc 0).dwStartSector) = st at *
    obtain ⟨S, last⟩ := st
    simp only at ih1 ih2 ih3 ih4 ih5
    have hk1 : (S (1 + k)).dwStartSector = (toc (1 + k)).dwStartSector := by
      rw [ih3 (1 + k) (by omega)]
    have hlast : last = runMax (fun j => (toc j).dwStartSector) k := by
      rw [ih1]
      exact ih2 k (le_refl _)
    have hadd : 1 + k = k + 1 := by omega
    unfold fixupRaiseStep
    simp only
    refine ⟨?_, ?_, ?_, ?_, ?_⟩
    · rw [hadd]
    · intro i hi
      by_cases hik : i = k + 1
      · subst hik
        show _ = max (runMax (fun j => (toc j).dwStartSector) k) ((toc (k + 1)).dwStartSector)
        rw [← hlast, ← hadd, ← hk1]
        split_ifs with hlt
        · rw [setStart_start, if_pos rfl]
          exact (max_eq_left (le_of_lt hlt)).symm
        · exact (max_eq_right (not_lt.mp hlt)).symm
      · split_ifs with hlt
        · rw [setStart_start, if_neg (by omega)]
          exact ih2 i (by omega)
        · exact ih2 i (by omega)
    · intro i hi
      split_ifs with hlt
      · rw [setStart_other _ _ _ _ (by omega)]
        exact ih3 i (by omega)
      · exact ih3 i (by omega)
    · intro i
      split_ifs with hlt
      · rw [setStart_bFlags]
        exact ih4 i
      · exact ih4 i
    · intro i
      split_ifs with hlt
      · rw [setStart_bTrack]
        exact ih5 i
      · exact ih5 i

theorem TOC_eq (a b : TOC) (h1 : a.bFlags = b.bFlags) (h2 : a.bTrack = b.bTrack)
    (h3 : a.dwStartSector = b.dwStartSector) : a = b := by
  cases a
  cases b
  simp_all

theorem fixupClamp_nonneg (n : Nat) (toc : Nat → TOC) (i : Nat) (hi : i < n) :
    0 ≤ (fixupClamp n toc i).dwStartSector :=
  (fixupClamp_aux n toc n).2.1 i hi

theorem fixupClamp_beyond (n : Nat) (toc : Nat → TOC) (i : Nat) (hi : n ≤ i) :
    fixupClamp n toc i = toc i :=
  (fixupClamp_aux n toc n).1 i hi

theorem fixupClamp_bFlags (n : Nat) (toc : Nat → TOC) (i : Nat) :
    (fixupClamp n toc i).bFlags = (toc i).bFlags :=
  (fixupClamp_aux n toc n).2.2.1 i

theorem fixupClamp_bTrack (n : Nat) (toc : Nat → TOC) (i : Nat) :
    (fixupClamp n toc i).bTrack = (toc i).bTrack :=
  (fixupClamp_aux n toc n).2.2.2 i

theorem fixupClamp_id (n : Nat) (toc : Nat → TOC) (h : SortedTOC n toc) :
    fixupClamp n toc = toc :=
  fixupClamp_id_aux n toc h n (le_refl _)

theorem fixupRaise_start (n : Nat) (toc : Nat → TOC) (i : Nat) (hi : i < n) :
    (fixupRaise n toc i).dwStartSector = runMax (fun j => (toc j).dwStartSector) i :=
  (fixupRaise_aux toc (n - 1)).2.1 i (by omega)

theorem fixupRaise_beyond (n : Nat) (toc : Nat → TOC) (i : Nat) (hi : n ≤ i) :
    fixupRaise n toc i = toc i := by
  cases n with
  | zero => rfl
  | succ n => exact (fixupRaise_aux toc n).2.2.1 i (by omega)

theorem fixupRaise_bFlags (n : Nat) (toc : Nat → TOC) (i : Nat) :
    (fixupRaise n toc i).bFlags = (toc i).bFlags :=
  (fixupRaise_aux toc (n - 1)).2.2.2.1 i

theorem fixupRaise_bTrack (n : Nat) (toc : Nat → TOC) (i : Nat) :
    (fixupRaise n toc i).bTrack = (toc i).bTrack :=
  (fixupRaise_aux toc (n - 1)).2.2.2.2 i

theorem fixupPasses_bFlags (n : Nat) (toc : Nat → TOC) (i : Nat) :
    (fixupPasses n toc i).bFlags = (toc i).bFlags := by
  unfold fixupPasses
  rw [fixupRaise_bFlags, fixupClamp_bFlags]

theorem fixupPasses_bTrack (n : Nat) (toc : Nat → TOC) (i : Nat) :
    (fixupPasses n toc i).bTrack = (toc i).bTrack := by
  unfold fixupPasses
  rw [fixupRaise_bTrack, fixupClamp_bTrack]

theorem fixupPasses_beyond (n : Nat) (toc : Nat → TOC) (i : Nat) (hi : n ≤ i) :
    fixupPasses n toc i = toc i := by
  unfold fixupPasses
  rw [fixupRaise_beyond n _ i hi, fixupClamp_beyond n _ i hi]

theorem fixupPasses_start (n : Nat) (toc : Nat → TOC) (i : Nat) (hi : i < n) :
    (fixupPasses n toc i).dwStartSector
      = runMax (fun j => (fixupClamp n toc j).dwStartSector) i :=
  fixupRaise_start n _ i hi

theorem fixupPasses_sorted (n : Nat) (toc : Nat → TOC) : SortedTOC n (fixupPasses n toc) := by
  constructor
  · intro j hj
    rw [fixupPasses_start n toc j hj]
    exact le_trans (fixupClamp_nonneg n toc j hj) (runMax_ge _ j)
  · intro j hj
    rw [fixupPasses_start n toc j (by omega), fixupPasses_start n toc (j + 1) hj]
    exact runMax_mono_succ _ j

theorem fixupPasses_id (n : Nat) (toc : Nat → TOC) (h : SortedTOC n toc) :
    fixupPasses n toc = toc := by
  funext i
  apply TOC_eq
  · exact fixupPasses_bFlags n toc i
  · exact fixupPasses_bTrack n toc i
  · by_cases hi : i < n
    · rw [fixupPasses_start n toc i hi, fixupClamp_id n toc h]
      exact runMax_of_sorted (fun j => (toc j).dwStartSector) n h.2 i hi
    · rw [fixupPasses_beyond n toc i (by omega)]

/-! ## The multisession adjustment -/

theorem IS_AUDIO_congr (d e : cdrom_drive_t)
    (h : ∀ i, (e.disc_toc i).bFlags = (d.disc_toc i).bFlags) (i : Nat) :
    IS_AUDIO e i = IS_AUDIO d i := by
  unfold IS_AUDIO
  rw [h i]

theorem fixupLeadout_frame (lba : Int) (k : Nat) (d : cdrom_drive_t) :
    (fixupLeadout lba k d).ioctl_fd = d.ioctl_fd ∧
    (fixupLeadout lba k d).tracks = d.tracks ∧
    (fixupLeadout lba k d).bigendianp = d.bigendianp ∧
    (∀ i, ((fixupLeadout lba k d).disc_toc i).bFlags = (d.disc_toc i).bFlags) ∧
    (∀ i, ((fixupLeadout lba k d).disc_toc i).bTrack = (d.disc_toc i).bTrack) ∧
    (∀ i, k ≤ i → (fixupLeadout lba k d).disc_toc i = d.disc_toc i) := by
  induction k with
  | zero => simp [fixupLeadout]
  | succ k ih =>
    unfold fixupLeadout
    split_ifs with h1 h2
    · refine ⟨rfl, rfl, rfl, ?_, ?_, ?_⟩
      · intro i
        exact setStart_bFlags _ _ _ _
      · intro i
        exact setStart_bTrack _ _ _ _
      · intro i hi
        exact setStart_other _ _ _ _ (by omega)
    · simp
    · obtain ⟨a, b, c, e, f, g⟩ := ih
      exact ⟨a, b, c, e, f, fun i hi => g i (by omega)⟩

theorem fixupLeadout_audio (lba : Int) (k : Nat) (d : cdrom_drive_t) (i : Nat) :
    IS_AUDIO (fixupLeadout lba k d) i = IS_AUDIO d i :=
  IS_AUDIO_congr d _ (fixupLeadout_frame lba k d).2.2.2.1 i

theorem fixupLeadout_sorted (lba : Int) (n : Nat) (k : Nat) (d : cdrom_drive_t)
    (hk : k ≤ n) (h : SortedTOC n d.disc_toc) :
    SortedTOC n (fixupLeadout lba k d).disc_toc := by
  induction k with
  | zero => exact h
  | succ k ih =>
    unfold fixupLeadout
    split_ifs with h1 h2
    · obtain ⟨hpos, -, -⟩ := h1
      obtain ⟨hgt, hlt⟩ := h2
      have hprev := h.1 (k - 1) (by omega)
      constructor
      · intro j hj
        show 0 ≤ (setStart d.disc_toc k (lba - 11400) j).dwStartSector
        rw [setStart_start]
        split_ifs with hjk
        · omega
        · exact h.1 j hj
      · intro j hj
        show (setStart d.disc_toc k (lba - 11400) j).dwStartSector
          ≤ (setStart d.disc_toc k (lba - 11400) (j + 1)).dwStartSector
        rw [setStart_start, setStart_start]
        have hmono := h.2 j hj
        split_ifs with hjk hjk1 hjk1
        · omega
        · subst hjk
          omega
        · have hj1 : j = k - 1 := by omega
          subst hj1
          omega
        · exact hmono
    · exact h
    · exact ih (by omega)

theorem fixupLeadout_idem (lba : Int) (k : Nat) (d : cdrom_drive_t) :
    fixupLeadout lba k (fixupLeadout lba k d) = fixupLeadout lba k d := by
  induction k with
  | zero => rfl
  | succ k ih =>
    by_cases h1 : k > 0 ∧ IS_AUDIO d k = false ∧ IS_AUDIO d (k - 1) = true
    · by_cases h2 : (d.disc_toc k).dwStartSector > lba - 11400 ∧
          lba - 11400 > (d.disc_toc (k - 1)).dwStartSector
      · have e1 : fixupLeadout lba (k + 1) d
            = { d with disc_toc := setStart d.disc_toc k (lba - 11400) } := by
          rw [fixupLeadout, if_pos h1, if_pos h2]
        rw [e1]
        have hau : ∀ i, IS_AUDIO { d with disc_toc := setStart d.disc_toc k (lba - 11400) } i
            = IS_AUDIO d i := fun i =>
          IS_AUDIO_congr d _ (fun i => setStart_bFlags _ _ _ _) i
        rw [fixupLeadout, if_pos (by rw [hau, hau]; exact h1), if_neg]
        rintro ⟨hgt, -⟩
        simp only [setStart_start, if_true] at hgt
        omega
      · have e1 : fixupLeadout lba (k + 1) d = d := by
          rw [fixupLeadout, if_pos h1, if_neg h2]
        rw [e1]
        exact e1
    · have e1 : fixupLeadout lba (k + 1) d = fixupLeadout lba k d := by
        rw [fixupLeadout, if_neg h1]
      rw [e1, fixupLeadout, if_neg, ih]
      rw [fixupLeadout_audio, fixupLeadout_audio]
      exact h1

/-! ## `FixupTOC` as a whole -/

theorem SortedTOC_le (n : Nat) (toc : Nat → TOC) (h : SortedTOC n toc) (i j : Nat)
    (hij : i ≤ j) (hj : j < n) : (toc i).dwStartSector ≤ (toc j).dwStartSector := by
  induction j with
  | zero =>
    have : i = 0 := by omega
    subst this
    exact le_refl _
  | succ j ih =>
    by_cases e : i = j + 1
    · subst e
      exact le_refl _
    · exact le_trans (ih (by omega) (by omega)) (h.2 j hj)

theorem FixupTOC_sorted (ioctl : Int → ms_query) (d : cdrom_drive_t) (n : Nat) :
    SortedTOC n (FixupTOC ioctl d n).2.disc_toc := by
  unfold FixupTOC
  simp only
  split_ifs
  · exact fixupPasses_sorted n d.disc_toc
  · exact fixupLeadout_sorted _ n n _ (le_refl _) (fixupPasses_sorted n d.disc_toc)
  · exact fixupPasses_sorted n d.disc_toc
  · exact fixupPasses_sorted n d.disc_toc

theorem FixupTOC_fd (ioctl : Int → ms_query) (d : cdrom_drive_t) (n : Nat) :
    (FixupTOC ioctl d n).2.ioctl_fd = d.ioctl_fd := by
  unfold FixupTOC
  simp only
  split_ifs
  · rfl
  · exact (fixupLeadout_frame _ _ _).1
  · rfl
  · rfl

theorem fixupPasses_drive_id (n : Nat) (d : cdrom_drive_t) (h : SortedTOC n d.disc_toc) :
    ({ d with disc_toc := fixupPasses n d.disc_toc } : cdrom_drive_t) = d := by
  rw [fixupPasses_id n d.disc_toc h]

/-- C1: for every table (any signed start sectors, any flags), every track
count `n` and every multisession outcome (no descriptor, a failing query, or
any reported lead-out address), the start sectors of tracks `0 .. n-1` after
`FixupTOC` are non-negative and non-decreasing in the track index. -/
theorem FixupTOC_monotone (ioctl : Int → ms_query) (d : cdrom_drive_t) (n : Nat) :
    (∀ j, j < n → 0 ≤ startOf (FixupTOC ioctl d n).2 j) ∧
    (∀ i j, i ≤ j → j < n →
      startOf (FixupTOC ioctl d n).2 i ≤ startOf (FixupTOC ioctl d n).2 j) :=
  ⟨fun j hj => (FixupTOC_sorted ioctl d n).1 j hj,
   fun i j hij hj => SortedTOC_le n _ (FixupTOC_sorted ioctl d n) i j hij hj⟩

/-- C1 at a concrete table: the damaged table `5, -3, 4, 2` comes out as
`0, 0, 0, 2`, and the mixed disc with lead-out 20000 as `0, 5000, 8600, 13000`. -/
theorem FixupTOC_monotone_witness :
    startsOf (FixupTOC ioctlFails damagedDisc 4).2 4 = [0, 0, 0, 2] ∧
    startsOf (FixupTOC (ioctlReports 20000) mixedDisc 4).2 4 = [0, 5000, 8600, 13000] ∧
    startOf (FixupTOC (ioctlReports 20000) mixedDisc 4).2 1
      ≤ startOf (FixupTOC (ioctlReports 20000) mixedDisc 4).2 2 :=
  ⟨by decide, by decide,
   (FixupTOC_monotone (ioctlReports 20000) mixedDisc 4).2 1 2 (by decide) (by decide)⟩

/-- C2: with the multisession outcome held fixed, a second run of `FixupTOC`
on the drive left by the first run returns the same value and leaves the same
drive; in particular it changes no start sector. -/
theorem FixupTOC_idempotent (ioctl : Int → ms_query) (d : cdrom_drive_t) (n : Nat) :
    FixupTOC ioctl (FixupTOC ioctl d n).2 n = FixupTOC ioctl d n := by
  have hs := FixupTOC_sorted ioctl d n
  have hfd := FixupTOC_fd ioctl d n
  generalize hr : FixupTOC ioctl d n = r at hs hfd
  have hrun : FixupTOC ioctl r.2 n =
      (if r.2.ioctl_fd ≠ -1 then
        if (ioctl r.2.ioctl_fd).result = -1 then (-1, r.2)
        else if (ioctl r.2.ioctl_fd).lba > 100 then
          (1, fixupLeadout (ioctl r.2.ioctl_fd).lba n r.2)
        else (0, r.2)
      else (0, r.2)) := by
    unfold FixupTOC
    simp only [fixupPasses_drive_id n r.2 hs]
  rw [hrun, hfd, ← hr]
  unfold FixupTOC
  simp only
  split_ifs
  · rfl
  · rw [fixupLeadout_idem]
  · rfl
  · rfl

theorem fixupLeadout_at_boundary (lba : Int) (d : cdrom_drive_t) (n j : Nat)
    (h : IsLastBoundary d n j) :
    fixupLeadout lba n d =
      if (d.disc_toc j).dwStartSector > lba - 11400 ∧
          lba - 11400 > (d.disc_toc (j - 1)).dwStartSector then
        { d with disc_toc := setStart d.disc_toc j (lba - 11400) }
      else d := by
  induction n with
  | zero =>
    obtain ⟨-, hlt, -⟩ := h
    omega
  | succ n ih =>
    obtain ⟨hpos, hlt, ha, hb, hmax⟩ := h
    by_cases e : j = n
    · subst e
      rw [fixupLeadout, if_pos ⟨hpos, ha, hb⟩]
    · have hno := hmax n (by omega) (by omega)
      rw [fixupLeadout, if_neg (fun hc => hno ⟨hc.2.1, hc.2.2⟩)]
      exact ih ⟨hpos, by omega, ha, hb, fun k hk hkn => hmax k hk (by omega)⟩

theorem fixupLeadout_no_boundary (lba : Int) (d : cdrom_drive_t) (n : Nat)
    (h : ∀ j, 0 < j → j < n → ¬ ( IS_AUDIO d j = false ∧ IS_AUDIO d (j - 1) = true)) :
    fixupLeadout lba n d = d := by
  induction n with
  | zero => rfl
  | succ n ih =>
    rw [fixupLeadout, if_neg (fun hc => h n hc.1 (by omega) ⟨hc.2.1, hc.2.2⟩)]
    exact ih (fun j hj hjn => h j hj (by omega))

theorem IsLastBoundary_passes (d : cdrom_drive_t) (n j : Nat) (h : IsLastBoundary d n j) :
    IsLastBoundary { d with disc_toc := fixupPasses n d.disc_toc } n j := by
  have hau : ∀ i, IS_AUDIO { d with disc_toc := fixupPasses n d.disc_toc } i = IS_AUDIO d i :=
    fun i => IS_AUDIO_congr d _ (fun i => fixupPasses_bFlags n d.disc_toc i) i
  unfold IsLastBoundary
  simp only [hau]
  exact h

/-- C6: write `P` for the table left by the two repair loops (passes 1-3).
When a lead-out address `L > 100` is obtained and `j` is the largest index with
`0 < j < n`, track `j` not audio and track `j-1` audio, then the table after
`FixupTOC` is `P` with the start of track `j` replaced by `L - 11400` if
`P[j-1] < L - 11400 < P[j]`, and is `P` itself otherwise; it is `P` itself when
no such `j` exists, when `L <= 100`, when the query fails and when there is no
descriptor. -/
theorem FixupTOC_multisession (ioctl : Int → ms_query) (d : cdrom_drive_t) (n : Nat) :
    (d.ioctl_fd ≠ -1 → (ioctl d.ioctl_fd).result ≠ -1 → (ioctl d.ioctl_fd).lba > 100 →
      (∀ j, IsLastBoundary d n j →
        ((fixupPasses n d.disc_toc (j - 1)).dwStartSector < (ioctl d.ioctl_fd).lba - 11400 ∧
          (ioctl d.ioctl_fd).lba - 11400 < (fixupPasses n d.disc_toc j).dwStartSector →
          (FixupTOC ioctl d n).2.disc_toc =
            setStart (fixupPasses n d.disc_toc) j ((ioctl d.ioctl_fd).lba - 11400)) ∧
        (¬ ((fixupPasses n d.disc_toc (j - 1)).dwStartSector < (ioctl d.ioctl_fd).lba - 11400 ∧
          (ioctl d.ioctl_fd).lba - 11400 < (fixupPasses n d.disc_toc j).dwStartSector) →
          (FixupTOC ioctl d n).2.disc_toc = fixupPasses n d.disc_toc)) ∧
      ((¬ ∃ j, IsLastBoundary d n j) →
        (FixupTOC ioctl d n).2.disc_toc = fixupPasses n d.disc_toc)) ∧
    (d.ioctl_fd = -1 ∨ (ioctl d.ioctl_fd).result = -1 ∨ (ioctl d.ioctl_fd).lba ≤ 100 →
      (FixupTOC ioctl d n).2.disc_toc = fixupPasses n d.disc_toc) := by
  constructor
  · intro hfd hres hlba
    have hrun : (FixupTOC ioctl d n).2 =
        fixupLeadout (ioctl d.ioctl_fd).lba n { d with disc_toc := fixupPasses n d.disc_toc } := by
      unfold FixupTOC
      simp only
      rw [if_pos hfd, if_neg hres, if_pos hlba]
    rw [hrun]
    constructor
    · intro j hj
      rw [fixupLeadout_at_boundary _ _ n j (IsLastBoundary_passes d n j hj)]
      constructor
      · intro hc
        rw [if_pos ⟨hc.2, hc.1⟩]
      · intro hc
        rw [if_neg (fun hc2 => hc ⟨hc2.2, hc2.1⟩)]
    · intro hno
      rw [fixupLeadout_no_boundary]
      intro j hj hjn hc
      have hau : ∀ i, IS_AUDIO { d with disc_toc := fixupPasses n d.disc_toc } i = IS_AUDIO d i :=
        fun i => IS_AUDIO_congr d _ (fun i => fixupPasses_bFlags n d.disc_toc i) i
      rw [hau, hau] at hc
      -- the largest boundary at or above `j` exists
      have hex : ∃ m, j ≤ m ∧ m < n ∧ IS_AUDIO d m = false ∧ IS_AUDIO d (m - 1) = true ∧
          ∀ k, m < k → k < n → ¬ ( IS_AUDIO d k = false ∧ IS_AUDIO d (k - 1) = true) := by
        have key : ∀ t, ∀ m, n - m ≤ t → j ≤ m → m < n → IS_AUDIO d m = false →
            IS_AUDIO d (m - 1) = true →
            ∃ m2, j ≤ m2 ∧ m2 < n ∧ IS_AUDIO d m2 = false ∧ IS_AUDIO d (m2 - 1) = true ∧
              ∀ k, m2 < k → k < n → ¬ ( IS_AUDIO d k = false ∧ IS_AUDIO d (k - 1) = true) := by
          intro t
          induction t with
          | zero =>
            intro m hm _ hmn _ _
            omega
          | succ t ih =>
            intro m hm hjm hmn ha hb
            by_cases hmax : ∀ k, m < k → k < n →
                ¬ ( IS_AUDIO d k = false ∧ IS_AUDIO d (k - 1) = true)
            · exact ⟨m, hjm, hmn, ha, hb, hmax⟩
            · push_neg at hmax
              obtain ⟨k, hk, hkn, hka, hkb⟩ := hmax
              exact ih k (by omega) (by omega) hkn hka hkb
        exact key (n - j) j (le_refl _) (le_refl _) hjn hc.1 hc.2
      obtain ⟨m, hjm, hmn, ha, hb, hmax⟩ := hex
      exact hno ⟨m, by omega, hmn, ha, hb, hmax⟩
  · intro h
    unfold FixupTOC
    simp only
    split_ifs with h1 h2 h3
    · rfl
    · rcases h with h | h | h
      · exact absurd h h1
      · exact absurd h h2
      · omega
    · rfl
    · rfl

/-- C6 at a concrete disc: on the mixed disc (audio, audio, data, data) the
boundary is track index 2; with lead-out 20000 its start 12000 becomes 8600,
with lead-out 30000 nothing changes. -/
theorem FixupTOC_multisession_witness :
    IsLastBoundary mixedDisc 4 2 ∧
    (FixupTOC (ioctlReports 20000) mixedDisc 4).2.disc_toc
      = setStart (fixupPasses 4 mixedDisc.disc_toc) 2 8600 ∧
    startsOf (FixupTOC (ioctlReports 20000) mixedDisc 4).2 4 = [0, 5000, 8600, 13000] ∧
    startsOf (FixupTOC (ioctlReports 30000) mixedDisc 4).2 4 = [0, 5000, 12000, 13000] := by
  have hb : IsLastBoundary mixedDisc 4 2 := by
    refine ⟨by decide, by decide, by decide, by decide, ?_⟩
    intro k hk hkn
    have : k = 3 := by omega
    subst this
    decide
  exact ⟨hb,
    ((FixupTOC_multisession (ioctlReports 20000) mixedDisc 4).1 (by decide) (by decide)
      (by decide)).1 2 hb |>.1 (by decide),
    by decide, by decide⟩

/-- C7 as stated fails: with a descriptor present and a failing multisession
query (no lead-out obtainable) `FixupTOC` returns -1, not a non-negative value. -/
theorem FixupTOC_unavailable_counterexample :
    mixedDisc.ioctl_fd ≠ -1 ∧ (ioctlFails mixedDisc.ioctl_fd).result = -1 ∧
    (FixupTOC ioctlFails mixedDisc 4).1 = -1 ∧ ¬ (0 ≤ (FixupTOC ioctlFails mixedDisc 4).1) := by
  decide

/-- C7 amended: `FixupTOC` returns 0 whenever there is no ioctl descriptor, and
a non-negative value whenever the multisession query succeeds; when a
descriptor is present and the query itself fails it returns -1. -/
theorem FixupTOC_unavailable (ioctl : Int → ms_query) (d : cdrom_drive_t) (n : Nat) :
    (d.ioctl_fd = -1 → (FixupTOC ioctl d n).1 = 0) ∧
    (d.ioctl_fd ≠ -1 → (ioctl d.ioctl_fd).result ≠ -1 → 0 ≤ (FixupTOC ioctl d n).1) ∧
    (d.ioctl_fd ≠ -1 → (ioctl d.ioctl_fd).result = -1 → (FixupTOC ioctl d n).1 = -1) := by
  unfold FixupTOC
  simp only
  refine ⟨?_, ?_, ?_⟩
  · intro h
    rw [if_neg (by simpa using h)]
  · intro h1 h2
    rw [if_pos h1, if_neg h2]
    split_ifs <;> simp
  · intro h1 h2
    rw [if_pos h1, if_pos h2]

/-- C7 amended, at concrete drives: no descriptor gives 0, a failing query
gives -1. -/
theorem FixupTOC_unavailable_witness :
    (FixupTOC ioctlFails damagedDisc 4).1 = 0 ∧ (FixupTOC ioctlFails mixedDisc 4).1 = -1 :=
  ⟨(FixupTOC_unavailable ioctlFails damagedDisc 4).1 (by decide),
   (FixupTOC_unavailable ioctlFails mixedDisc 4).2.2 (by decide) (by decide)⟩

/-! ## The copy loop of the extraction examples -/

theorem copyLoop_zero (src : Int → List UInt8) (ferror : Nat → Bool) (fuel : Nat) (lsn : Int)
    (st : xfer_state) : copyLoop src ferror fuel 0 lsn st = (none, st) := by
  cases fuel with
  | zero => rfl
  | succ fuel => simp [copyLoop]

/-- The iteration bound of `copyLoop` is immaterial once it is at least the
number of bytes to write. -/
theorem copyLoop_fuel (src : Int → List UInt8) (ferror : Nat → Bool) (fuel : Nat) :
    ∀ (fuel2 to_write : Nat) (lsn : Int) (st : xfer_state),
      to_write ≤ fuel → to_write ≤ fuel2 →
      copyLoop src ferror fuel to_write lsn st = copyLoop src ferror fuel2 to_write lsn st := by
  induction fuel with
  | zero =>
    intro fuel2 to_write lsn st h1 _
    have : to_write = 0 := by omega
    subst this
    rw [copyLoop_zero, copyLoop_zero]
  | succ fuel ih =>
    intro fuel2 to_write lsn st h1 h2
    cases fuel2 with
    | zero =>
      have : to_write = 0 := by omega
      subst this
      rw [copyLoop_zero, copyLoop_zero]
    | succ fuel2 =>
      unfold copyLoop
      by_cases hpos : to_write > 0
      · simp only [if_pos hpos]
        have hB : ISO_BLOCKSIZE = 2048 := rfl
        split_ifs
        all_goals first
          | rfl
          | exact ih fuel2 _ _ _ (by omega) (by omega)
      · simp only [if_neg hpos]

theorem copyFile_zero (src : Int → List UInt8) (ferror : Nat → Bool) (lsn : Int)
    (st : xfer_state) : copyFile src ferror 0 lsn st = (none, st) := rfl

/-- One iteration of the `while` loop. -/
theorem copyFile_pos (src : Int → List UInt8) (ferror : Nat → Bool) (to_write : Nat)
    (lsn : Int) (st : xfer_state) (hpos : 0 < to_write) :
    copyFile src ferror to_write lsn st =
      if ISO_BLOCKSIZE ≠ (src lsn).length then
        (some 4, { st with reads := st.reads ++ [lsn], err_lsn := some lsn })
      else if ferror st.nwrites then
        (some 5, { st with reads := st.reads ++ [lsn],
                           out := st.out ++ (src lsn).take (min ISO_BLOCKSIZE to_write),
                           nwrites := st.nwrites + 1 })
      else
        copyFile src ferror (to_write - min ISO_BLOCKSIZE to_write) (lsn + 1)
          { st with reads := st.reads ++ [lsn],
                    out := st.out ++ (src lsn).take (min ISO_BLOCKSIZE to_write),
                    nwrites := st.nwrites + 1 } := by
  have hwn : (if to_write > ISO_BLOCKSIZE then ISO_BLOCKSIZE else to_write)
      = min ISO_BLOCKSIZE to_write := by
    split_ifs with h
    · exact (min_eq_left (le_of_lt h)).symm
    · exact (min_eq_right (not_lt.mp h)).symm
  obtain ⟨m, rfl⟩ : ∃ m, to_write = m + 1 := ⟨to_write - 1, by omega⟩
  unfold copyFile
  rw [copyLoop]
  simp only [if_pos hpos, hwn]
  split_ifs with hrd hferr
  · rfl
  · rfl
  · have hB : ISO_BLOCKSIZE = 2048 := rfl
    exact copyLoop_fuel src ferror m _ _ _ _ (by omega) (le_refl _)

theorem CEILING_zero : CEILING 0 ISO_BLOCKSIZE = 0 := by decide

theorem CEILING_pos (to_write : Nat) (h : 0 < to_write) :
    CEILING to_write ISO_BLOCKSIZE
      = CEILING (to_write - min ISO_BLOCKSIZE to_write) ISO_BLOCKSIZE + 1 := by
  unfold CEILING ISO_BLOCKSIZE
  omega

theorem filePlan_zero (lsn : Int) : filePlan lsn 0 = [] := by
  unfold filePlan
  rw [CEILING_zero]
  rfl

theorem filePlan_pos (lsn : Int) (to_write : Nat) (h : 0 < to_write) :
    filePlan lsn to_write =
      (lsn, min ISO_BLOCKSIZE to_write) ::
        filePlan (lsn + 1) (to_write - min ISO_BLOCKSIZE to_write) := by
  unfold filePlan
  rw [CEILING_pos to_write h]
  rfl

/-- The `while` loop executes the schedule of its sweep. -/
theorem copyFile_eq_runPlan (src : Int → List UInt8) (ferror : Nat → Bool) (to_write : Nat) :
    ∀ (lsn : Int) (st : xfer_state),
      copyFile src ferror to_write lsn st = runPlan src ferror (filePlan lsn to_write) st := by
  induction to_write using Nat.strong_induction_on with
  | _ to_write ih =>
    intro lsn st
    by_cases hpos : 0 < to_write
    · rw [copyFile_pos src ferror to_write lsn st hpos, filePlan_pos lsn to_write hpos, runPlan]
      have hB : ISO_BLOCKSIZE = 2048 := rfl
      rw [ih (to_write - min ISO_BLOCKSIZE to_write) (by omega)]
    · have : to_write = 0 := by omega
      subst this
      rw [copyFile_zero, filePlan_zero]
      rfl

theorem runPlan_append (src : Int → List UInt8) (ferror : Nat → Bool)
    (p q : List (Int × Nat)) :
    ∀ st : xfer_state, runPlan src ferror (p ++ q) st =
      match runPlan src ferror p st with
      | (some rc, st1) => (some rc, st1)
      | (none, st1) => runPlan src ferror q st1 := by
  induction p with
  | nil =>
    intro st
    rfl
  | cons a p ih =>
    intro st
    obtain ⟨lsn, n⟩ := a
    simp only [List.cons_append, runPlan]
    split_ifs
    · rfl
    · rfl
    · exact ih _

/-- The per-extent loop executes the schedule of its extents. -/
theorem copyExtents_eq_runPlan (src : Int → List UInt8) (ferror : Nat → Bool)
    (extents : List iso9660_extent_descr_t) :
    ∀ st : xfer_state,
      copyExtents src ferror extents st = runPlan src ferror (extentsPlan extents) st := by
  induction extents with
  | nil =>
    intro st
    rfl
  | cons e es ih =>
    intro st
    have hplan : extentsPlan (e :: es) = filePlan e.lsn e.size ++ extentsPlan es := by
      simp [extentsPlan]
    rw [copyExtents, hplan, runPlan_append, copyFile_eq_runPlan]
    generalize runPlan src ferror (filePlan e.lsn e.size) st = r
    obtain ⟨rc, st1⟩ := r
    cases rc with
    | none => exact ih st1
    | some rc => rfl

/-- The extraction of `isofile.c` executes its schedule. -/
theorem isofile_extract_eq (src : Int → List UInt8) (ferror : Nat → Bool)
    (p_statbuf : iso9660_statv2_t) :
    isofile_extract src ferror p_statbuf
      = finish (runPlan src ferror (neededPlan p_statbuf) xfer_state.init) := by
  unfold isofile_extract neededPlan
  split_ifs
  · unfold contiguousBranch
    simp only
    rw [copyFile_eq_runPlan]
  · unfold gapBranch
    rw [copyExtents_eq_runPlan]

theorem blockRun_zero (lsn : Int) : blockRun lsn 0 = [] := rfl

theorem blockRun_succ (lsn : Int) (k : Nat) :
    blockRun lsn (k + 1) = lsn :: blockRun (lsn + 1) k := by
  unfold blockRun
  rw [List.range_succ_eq_map, List.map_cons, List.map_map]
  congr 1
  · simp
  · apply List.map_congr_left
    intro i _
    simp only [Function.comp, Nat.succ_eq_add_one, Nat.cast_add, Nat.cast_one]
    omega

theorem filePlanAux_lsns (k : Nat) : ∀ (lsn : Int) (to_write : Nat),
    (filePlanAux k lsn to_write).map Prod.fst = blockRun lsn k := by
  induction k with
  | zero =>
    intro lsn to_write
    rfl
  | succ k ih =>
    intro lsn to_write
    rw [filePlanAux, List.map_cons, ih, blockRun_succ]

theorem filePlan_lsns (lsn : Int) (to_write : Nat) :
    (filePlan lsn to_write).map Prod.fst = blockRun lsn (CEILING to_write ISO_BLOCKSIZE) :=
  filePlanAux_lsns _ lsn to_write

theorem extentsPlan_lsns (extents : List iso9660_extent_descr_t) :
    (extentsPlan extents).map Prod.fst = requiredLsns extents := by
  induction extents with
  | nil => rfl
  | cons e es ih =>
    have h1 : extentsPlan (e :: es) = filePlan e.lsn e.size ++ extentsPlan es := by
      simp [extentsPlan]
    have h2 : requiredLsns (e :: es) = extentLsns e ++ requiredLsns es := by
      simp [requiredLsns]
    rw [h1, h2, List.map_append, ih, filePlan_lsns]
    rfl

theorem neededPlan_lsns (p_statbuf : iso9660_statv2_t) :
    (neededPlan p_statbuf).map Prod.fst = neededLsns p_statbuf := by
  unfold neededPlan neededLsns
  split_ifs
  · exact filePlan_lsns _ _
  · exact extentsPlan_lsns _

theorem planBytes_cons (src : Int → List UInt8) (s : Int × Nat) (p : List (Int × Nat)) :
    planBytes src (s :: p) = (src s.1).take s.2 ++ planBytes src p := by
  simp [planBytes]

theorem planBytes_append (src : Int → List UInt8) (p q : List (Int × Nat)) :
    planBytes src (p ++ q) = planBytes src p ++ planBytes src q := by
  simp [planBytes]

theorem filePlanAux_bytes (src : Int → List UInt8) (k : Nat) :
    ∀ (lsn : Int) (to_write : Nat), (∀ l ∈ blockRun lsn k, readOk src l) →
      planBytes src (filePlanAux k lsn to_write)
        = (((blockRun lsn k).map src).flatten).take to_write := by
  induction k with
  | zero =>
    intro lsn to_write _
    simp [filePlanAux, planBytes, blockRun]
  | succ k ih =>
    intro lsn to_write hok
    rw [blockRun_succ] at hok
    have hlen : (src lsn).length = ISO_BLOCKSIZE := hok lsn (List.mem_cons_self _ _)
    have hrest : ∀ l ∈ blockRun (lsn + 1) k, readOk src l :=
      fun l hl => hok l (List.mem_cons_of_mem _ hl)
    rw [filePlanAux, planBytes_cons, ih (lsn + 1) _ hrest, blockRun_succ, List.map_cons,
      List.flatten_cons, List.take_append_eq_append_take, hlen]
    by_cases hbig : ISO_BLOCKSIZE ≤ to_write
    · rw [min_eq_left hbig, List.take_of_length_le (by omega : (src lsn).length ≤ ISO_BLOCKSIZE),
        List.take_of_length_le (by omega : (src lsn).length ≤ to_write)]
    · have hmin : min ISO_BLOCKSIZE to_write = to_write := min_eq_right (by omega)
      have h0 : to_write - ISO_BLOCKSIZE = 0 := by omega
      simp only [hmin, Nat.sub_self, h0]

theorem blockRun_bytes_length (src : Int → List UInt8) (k : Nat) :
    ∀ lsn : Int, (∀ l ∈ blockRun lsn k, readOk src l) →
      (((blockRun lsn k).map src).flatten).length = ISO_BLOCKSIZE * k := by
  induction k with
  | zero =>
    intro lsn _
    rfl
  | succ k ih =>
    intro lsn hok
    rw [blockRun_succ] at hok
    have hlen : (src lsn).length = ISO_BLOCKSIZE := hok lsn (List.mem_cons_self _ _)
    rw [blockRun_succ, List.map_cons, List.flatten_cons, List.length_append, hlen,
      ih (lsn + 1) (fun l hl => hok l (List.mem_cons_of_mem _ hl))]
    ring

theorem CEILING_covers (to_write : Nat) :
    to_write ≤ ISO_BLOCKSIZE * CEILING to_write ISO_BLOCKSIZE := by
  unfold CEILING ISO_BLOCKSIZE
  omega

/-- The bytes of a sweep whose blocks all read: the first `to_write` bytes of
the concatenated blocks, `to_write` bytes in all. -/
theorem filePlan_bytes (src : Int → List UInt8) (lsn : Int) (to_write : Nat)
    (hok : ∀ l ∈ blockRun lsn (CEILING to_write ISO_BLOCKSIZE), readOk src l) :
    planBytes src (filePlan lsn to_write)
        = (((blockRun lsn (CEILING to_write ISO_BLOCKSIZE)).map src).flatten).take to_write ∧
    (planBytes src (filePlan lsn to_write)).length = to_write := by
  have h := filePlanAux_bytes src _ lsn to_write hok
  refine ⟨h, ?_⟩
  unfold filePlan
  rw [h, List.length_take, blockRun_bytes_length src _ lsn hok]
  exact min_eq_left (CEILING_covers to_write)

/-- What executing a schedule does, in all its outcomes.  `X` are the blocks
read, `post` the scheduled blocks never reached. -/
theorem runPlan_spec (src : Int → List UInt8) (ferror : Nat → Bool) (p : List (Int × Nat)) :
    ∀ st : xfer_state, ∃ X post : List Int,
      (runPlan src ferror p st).2.reads = st.reads ++ X ∧
      p.map Prod.fst = X ++ post ∧
      (∀ l ∈ X, ¬ readOk src l →
        (runPlan src ferror p st).1 = some 4 ∧ (runPlan src ferror p st).2.err_lsn = some l ∧
        ∃ pre, X = pre ++ [l] ∧ ∀ x ∈ pre, readOk src x) ∧
      ((runPlan src ferror p st).1 = none →
        post = [] ∧ (∀ l ∈ X, readOk src l) ∧
        (runPlan src ferror p st).2.out = st.out ++ planBytes src p ∧
        (runPlan src ferror p st).2.err_lsn = st.err_lsn) ∧
      ((runPlan src ferror p st).1 = some 4 →
        ∃ pre l, X = pre ++ [l] ∧ ¬ readOk src l ∧ (∀ x ∈ pre, readOk src x) ∧
          (runPlan src ferror p st).2.err_lsn = some l) ∧
      ((runPlan src ferror p st).1 = some 5 → ∃ k, ferror k = true) ∧
      ((runPlan src ferror p st).1 = none ∨ (runPlan src ferror p st).1 = some 4 ∨
        (runPlan src ferror p st).1 = some 5) ∧
      ((∀ k, ferror k = false) → (∃ l ∈ p.map Prod.fst, ¬ readOk src l) →
        (runPlan src ferror p st).1 = some 4) := by
  induction p with
  | nil =>
    intro st
    refine ⟨[], [], ?_⟩
    simp [runPlan, planBytes]
  | cons a p ih =>
    intro st
    obtain ⟨lsn, n⟩ := a
    by_cases hrd : ISO_BLOCKSIZE ≠ (src lsn).length
    · have e : runPlan src ferror ((lsn, n) :: p) st
          = (some 4, { st with reads := st.reads ++ [lsn], err_lsn := some lsn }) := by
        rw [runPlan, if_pos hrd]
      have hbad : ¬ readOk src lsn := fun h => hrd h.symm
      rw [e]
      refine ⟨[lsn], p.map Prod.fst, rfl, rfl, ?_, ?_, ?_, ?_, ?_, ?_⟩
      · intro l hl _
        have hl2 : l = lsn := by simpa using hl
        subst hl2
        exact ⟨rfl, rfl, [], rfl, by simp⟩
      · intro h
        simp at h
      · intro _
        exact ⟨[], lsn, rfl, hbad, by simp, rfl⟩
      · intro h
        simp at h
      · exact Or.inr (Or.inl rfl)
      · intro _ _
        rfl
    · have hgood : readOk src lsn := by
        unfold readOk
        exact (not_not.mp hrd).symm
      by_cases hf : ferror st.nwrites = true
      · have e : runPlan src ferror ((lsn, n) :: p) st
            = (some 5, { st with reads := st.reads ++ [lsn],
                                 out := st.out ++ (src lsn).take n,
                                 nwrites := st.nwrites + 1 }) := by
          rw [runPlan, if_neg hrd, if_pos hf]
        rw [e]
        refine ⟨[lsn], p.map Prod.fst, rfl, rfl, ?_, ?_, ?_, ?_, ?_, ?_⟩
        · intro l hl hnot
          have hl2 : l = lsn := by simpa using hl
          subst hl2
          exact absurd hgood hnot
        · intro h
          simp at h
        · intro h
          simp at h
        · intro _
          exact ⟨_, hf⟩
        · exact Or.inr (Or.inr rfl)
        · intro hall _
          rw [hall] at hf
          simp at hf
      · have e : runPlan src ferror ((lsn, n) :: p) st
            = runPlan src ferror p { st with reads := st.reads ++ [lsn],
                                             out := st.out ++ (src lsn).take n,
                                             nwrites := st.nwrites + 1 } := by
          rw [runPlan, if_neg hrd, if_neg hf]
        rw [e]
        obtain ⟨X, post, h1, h2, h3, h4, h5, h6, h7, h8⟩ :=
          ih { st with reads := st.reads ++ [lsn], out := st.out ++ (src lsn).take n,
                       nwrites := st.nwrites + 1 }
        refine ⟨lsn :: X, post, ?_, ?_, ?_, ?_, ?_, h6, h7, ?_⟩
        · rw [h1]
          simp
        · rw [List.map_cons, h2]
          rfl
        · intro l hl hnot
          have hl2 : l ∈ X := by
            rcases List.mem_cons.mp hl with h | h
            · subst h
              exact absurd hgood hnot
            · exact h
          obtain ⟨a1, a2, pre, a3, a4⟩ := h3 l hl2 hnot
          refine ⟨a1, a2, lsn :: pre, by rw [a3]; rfl, ?_⟩
          intro x hx
          rcases List.mem_cons.mp hx with h | h
          · subst h
            exact hgood
          · exact a4 x h
        · intro hnone
          obtain ⟨a1, a2, a3, a4⟩ := h4 hnone
          refine ⟨a1, ?_, ?_, a4⟩
          · intro l hl
            rcases List.mem_cons.mp hl with h | h
            · subst h
              exact hgood
            · exact a2 l h
          · rw [a3, planBytes_cons]
            simp
        · intro h4c
          obtain ⟨pre, l, a1, a2, a3, a4⟩ := h5 h4c
          refine ⟨lsn :: pre, l, by rw [a1]; rfl, a2, ?_, a4⟩
          intro x hx
          rcases List.mem_cons.mp hx with h | h
          · subst h
            exact hgood
          · exact a3 x h
        · intro hall hex
          apply h8 hall
          obtain ⟨l, hl, hnot⟩ := hex
          rw [List.map_cons] at hl
          rcases List.mem_cons.mp hl with h | h
          · subst h
            exact absurd hgood hnot
          · exact ⟨l, h, hnot⟩

/-- A schedule whose blocks all read, on a stream that never fails, runs to
its end. -/
theorem runPlan_ok (src : Int → List UInt8) (ferror : Nat → Bool) (p : List (Int × Nat))
    (st : xfer_state) (hok : ∀ l ∈ p.map Prod.fst, readOk src l)
    (hw : ∀ k, ferror k = false) :
    (runPlan src ferror p st).1 = none ∧
    (runPlan src ferror p st).2.reads = st.reads ++ p.map Prod.fst ∧
    (runPlan src ferror p st).2.out = st.out ++ planBytes src p ∧
    (runPlan src ferror p st).2.err_lsn = st.err_lsn := by
  obtain ⟨X, post, h1, h2, h3, h4, h5, h6, h7, -⟩ := runPlan_spec src ferror p st
  have hnone : (runPlan src ferror p st).1 = none := by
    rcases h7 with h | h | h
    · exact h
    · obtain ⟨pre, l, a1, a2, -, -⟩ := h5 h
      exact absurd (hok l (by rw [h2, a1]; simp)) a2
    · obtain ⟨k, hk⟩ := h6 h
      rw [hw k] at hk
      simp at hk
  obtain ⟨a1, -, a3, a4⟩ := h4 hnone
  refine ⟨hnone, ?_, a3, a4⟩
  rw [h1, h2, a1, List.append_nil]

theorem extentsPlan_cons (e : iso9660_extent_descr_t) (es : List iso9660_extent_descr_t) :
    extentsPlan (e :: es) = filePlan e.lsn e.size ++ extentsPlan es := by
  simp [extentsPlan]

theorem requiredLsns_cons (e : iso9660_extent_descr_t) (es : List iso9660_extent_descr_t) :
    requiredLsns (e :: es) = extentLsns e ++ requiredLsns es := by
  simp [requiredLsns]

theorem extentsPlan_bytes (src : Int → List UInt8) (extents : List iso9660_extent_descr_t)
    (hok : ∀ l ∈ requiredLsns extents, readOk src l) :
    planBytes src (extentsPlan extents) = extentsBytes src extents ∧
    (planBytes src (extentsPlan extents)).length = sumSizes extents := by
  induction extents with
  | nil => exact ⟨rfl, rfl⟩
  | cons e es ih =>
    rw [requiredLsns_cons] at hok
    have hokE : ∀ l ∈ blockRun e.lsn (CEILING e.size ISO_BLOCKSIZE), readOk src l :=
      fun l hl => hok l (List.mem_append_left _ hl)
    obtain ⟨ih1, ih2⟩ := ih (fun l hl => hok l (List.mem_append_right _ hl))
    obtain ⟨b1, b2⟩ := filePlan_bytes src e.lsn e.size hokE
    rw [extentsPlan_cons, planBytes_append]
    constructor
    · rw [ih1, b1]
      simp [extentsBytes, extentBytes, extentLsns]
    · rw [List.length_append, ih2, b2]
      simp [sumSizes]

theorem finish_of_none (r : Option Nat × xfer_state) (h : r.1 = none) :
    finish r = (0, r.2) := by
  obtain ⟨rc, st⟩ := r
  simp only at h
  subst h
  rfl

theorem copying_lsns : requiredLsns copyingStat.extents = [100, 105] := by decide

/-- C3: on a block source where every block of every extent reads (and an
output stream that reports no error), the per-extent procedure, which is the
gap branch of `isofile.c` and the loop of `isofile2.c`, `isofile.cpp` and
`OO/isofile2.cpp`, ends with code 0, has read for each extent in list order
exactly the blocks `lsn, ..., lsn + ceil(size/2048) - 1`, and has emitted for
each extent exactly the first `size` bytes of the concatenation of its blocks,
`sum of the sizes` bytes in all.  For the extents `{100, 2048}`, `{105, 1024}`
the output is `blocks[100] ++ blocks[105][0:1024]`, 3072 bytes. -/
theorem gapBranch_reads_extents (src : Int → List UInt8) (ferror : Nat → Bool)
    (hw : ∀ k, ferror k = false) :
    (∀ p_statbuf : iso9660_statv2_t,
      (∀ l ∈ requiredLsns p_statbuf.extents, readOk src l) →
        (gapBranch src ferror p_statbuf).1 = 0 ∧
        (gapBranch src ferror p_statbuf).2.reads = requiredLsns p_statbuf.extents ∧
        (gapBranch src ferror p_statbuf).2.out = extentsBytes src p_statbuf.extents ∧
        (gapBranch src ferror p_statbuf).2.out.length = sumSizes p_statbuf.extents) ∧
    (readOk src 100 → readOk src 105 →
      (gapBranch src ferror copyingStat).1 = 0 ∧
      (gapBranch src ferror copyingStat).2.reads = [100, 105] ∧
      (gapBranch src ferror copyingStat).2.out = src 100 ++ (src 105).take 1024 ∧
      (gapBranch src ferror copyingStat).2.out.length = 3072) := by
  have main : ∀ p_statbuf : iso9660_statv2_t,
      (∀ l ∈ requiredLsns p_statbuf.extents, readOk src l) →
        (gapBranch src ferror p_statbuf).1 = 0 ∧
        (gapBranch src ferror p_statbuf).2.reads = requiredLsns p_statbuf.extents ∧
        (gapBranch src ferror p_statbuf).2.out = extentsBytes src p_statbuf.extents ∧
        (gapBranch src ferror p_statbuf).2.out.length = sumSizes p_statbuf.extents := by
    intro p_statbuf hok
    obtain ⟨r1, r2, r3, -⟩ := runPlan_ok src ferror (extentsPlan p_statbuf.extents)
      xfer_state.init (by rw [extentsPlan_lsns]; exact hok) hw
    obtain ⟨b1, b2⟩ := extentsPlan_bytes src p_statbuf.extents hok
    unfold gapBranch
    rw [copyExtents_eq_runPlan, finish_of_none _ r1]
    refine ⟨rfl, ?_, ?_, ?_⟩
    · rw [r2, extentsPlan_lsns]
      rfl
    · rw [r3, b1]
      rfl
    · rw [r3, ← b2]
      rfl
  refine ⟨main, ?_⟩
  intro h100 h105
  have hok : ∀ l ∈ requiredLsns copyingStat.extents, readOk src l := by
    rw [copying_lsns]
    intro l hl
    simp only [List.mem_cons, List.mem_singleton, List.not_mem_nil, or_false] at hl
    rcases hl with h | h
    · rw [h]; exact h100
    · rw [h]; exact h105
  obtain ⟨m1, m2, m3, m4⟩ := main copyingStat hok
  refine ⟨m1, by rw [m2, copying_lsns], ?_, by rw [m4]; rfl⟩
  rw [m3]
  have e1 : extentLsns { lsn := 100, size := 2048 } = [100] := by decide
  have e2 : extentLsns { lsn := 105, size := 1024 } = [105] := by decide
  have l100 : (src 100).length = 2048 := h100
  simp only [extentsBytes, copyingStat, List.map_cons, List.map_nil, extentBytes, e1, e2,
    List.flatten_cons, List.flatten_nil, List.append_nil]
  rw [List.take_of_length_le (by omega : (src 100).length ≤ 2048)]

theorem goodSource_ok (l : Int) : readOk goodSource l := by
  unfold readOk goodSource
  exact List.length_replicate _ _

/-- C3 on a concrete block source: every block reads, block `l` holds the
byte `l mod 256` throughout. -/
theorem gapBranch_reads_extents_witness :
    (gapBranch goodSource noFerror copyingStat).1 = 0 ∧
    (gapBranch goodSource noFerror copyingStat).2.reads = [100, 105] ∧
    (gapBranch goodSource noFerror copyingStat).2.out
      = goodSource 100 ++ (goodSource 105).take 1024 ∧
    (gapBranch goodSource noFerror copyingStat).2.out.length = 3072 :=
  (gapBranch_reads_extents goodSource noFerror (fun _ => rfl)).2
    (goodSource_ok 100) (goodSource_ok 105)

/-! ## The contiguous branch against the per-extent branch -/

theorem filePlan_split (k : Nat) : ∀ (lsn : Int) (b : Nat),
    filePlan lsn (ISO_BLOCKSIZE * k + b)
      = filePlan lsn (ISO_BLOCKSIZE * k) ++ filePlan (lsn + (k : Int)) b := by
  induction k with
  | zero =>
    intro lsn b
    simp [filePlan_zero]
  | succ k ih =>
    intro lsn b
    have hB : ISO_BLOCKSIZE = 2048 := rfl
    have h1 : min ISO_BLOCKSIZE (ISO_BLOCKSIZE * (k + 1) + b) = ISO_BLOCKSIZE := by
      rw [hB]
      exact min_eq_left (by omega)
    have h2 : min ISO_BLOCKSIZE (ISO_BLOCKSIZE * (k + 1)) = ISO_BLOCKSIZE := by
      rw [hB]
      exact min_eq_left (by omega)
    have h3 : ISO_BLOCKSIZE * (k + 1) + b - ISO_BLOCKSIZE = ISO_BLOCKSIZE * k + b := by
      rw [hB]
      omega
    have h4 : ISO_BLOCKSIZE * (k + 1) - ISO_BLOCKSIZE = ISO_BLOCKSIZE * k := by
      rw [hB]
      omega
    have h5 : lsn + ((k + 1 : Nat) : Int) = lsn + 1 + (k : Int) := by omega
    have p1 : 0 < ISO_BLOCKSIZE * (k + 1) + b := by
      rw [hB]
      omega
    have p2 : 0 < ISO_BLOCKSIZE * (k + 1) := by
      rw [hB]
      omega
    rw [filePlan_pos lsn (ISO_BLOCKSIZE * (k + 1) + b) p1,
      filePlan_pos lsn (ISO_BLOCKSIZE * (k + 1)) p2, h1, h2, h3, h4, h5, ih (lsn + 1) b]
    rfl

theorem sumSizes_cons (e : iso9660_extent_descr_t) (es : List iso9660_extent_descr_t) :
    sumSizes (e :: es) = e.size + sumSizes es := by
  simp [sumSizes]

/-- Without gaps, the single sweep over the total size has the schedule of
the per-extent copy. -/
theorem filePlan_eq_extentsPlan (es : List iso9660_extent_descr_t) :
    ∀ e : iso9660_extent_descr_t, NoGaps (e :: es) →
      filePlan e.lsn (sumSizes (e :: es)) = extentsPlan (e :: es) := by
  induction es with
  | nil =>
    intro e _
    simp [sumSizes, extentsPlan]
  | cons e2 es ih =>
    intro e hng
    obtain ⟨hadj, hrest⟩ := hng
    have hB : ISO_BLOCKSIZE = 2048 := rfl
    rw [hB] at hadj
    obtain ⟨k, hk, hl⟩ : ∃ k : Nat, e.size = ISO_BLOCKSIZE * k ∧ e2.lsn = e.lsn + (k : Int) := by
      refine ⟨e.size / 2048, ?_, ?_⟩
      · rw [hB]
        push_cast at hadj
        omega
      · push_cast at hadj ⊢
        omega
    rw [sumSizes_cons, extentsPlan_cons, ← ih e2 hrest, hl, hk, filePlan_split]

/-- C4: for every non-empty extent list without gaps whose total size is the
sum of the extent sizes, every block source and every behaviour of the output
stream, the contiguous branch of `isofile.c` and the per-extent branch end
with the same exit code after the same sequence of block reads, the same
bytes handed to the output, and the same LSN reported in a read error. -/
theorem contiguous_eq_gap (src : Int → List UInt8) (ferror : Nat → Bool)
    (p_statbuf : iso9660_statv2_t) (hne : p_statbuf.extents ≠ [])
    (hng : NoGaps p_statbuf.extents)
    (htot : p_statbuf.total_size = sumSizes p_statbuf.extents) :
    contiguousBranch src ferror p_statbuf = gapBranch src ferror p_statbuf := by
  obtain ⟨extents, total_size, ty, flag⟩ := p_statbuf
  simp only at hne hng htot
  cases extents with
  | nil => exact absurd rfl hne
  | cons e es =>
    unfold contiguousBranch gapBranch
    simp only
    rw [copyFile_eq_runPlan, copyExtents_eq_runPlan, htot, filePlan_eq_extentsPlan es e hng]

theorem contiguousStat_noGaps : NoGaps contiguousStat.extents := by
  refine ⟨?_, trivial⟩
  decide

/-- C4 at a concrete file: the contiguous two-extent file `{100, 4096}`,
`{102, 1000}`, read from a source whose blocks from 102 on fail: both branches
agree, and both stop with code 4 at LSN 102 after reading 100, 101, 102. -/
theorem contiguous_eq_gap_witness :
    contiguousBranch (sourceUpTo 102) noFerror contiguousStat
      = gapBranch (sourceUpTo 102) noFerror contiguousStat ∧
    contiguousBranch goodSource noFerror contiguousStat
      = gapBranch goodSource noFerror contiguousStat :=
  ⟨contiguous_eq_gap (sourceUpTo 102) noFerror contiguousStat (by decide)
      contiguousStat_noGaps (by decide),
   contiguous_eq_gap goodSource noFerror contiguousStat (by decide)
      contiguousStat_noGaps (by decide)⟩

/-! ## Read failures of the extraction -/

theorem neededPlan_bytes_length (src : Int → List UInt8) (p_statbuf : iso9660_statv2_t)
    (hok : ∀ l ∈ neededLsns p_statbuf, readOk src l) :
    (planBytes src (neededPlan p_statbuf)).length = neededBytes p_statbuf := by
  unfold neededPlan neededBytes
  unfold neededLsns at hok
  split_ifs with h
  · rw [if_pos h] at hok
    exact (filePlan_bytes src _ _ hok).2
  · rw [if_neg h] at hok
    exact (extentsPlan_bytes src _ hok).2

/-- C5: in the extraction of `isofile.c` (either branch) the blocks read are
an initial part of the blocks the file needs, in order.  A read that fails is
the last read made: every read before it succeeded, the exit code is 4 and
the LSN reported is that of the failing block.  Code 4 arises in no other
way, code 5 only when the output stream reported an error, and code 0 only
when every needed block was read successfully and the full byte count was
handed to the output.  On a stream that never fails, a needed block that
does not read forces code 4. -/
theorem isofile_extract_read_failure (src : Int → List UInt8) (ferror : Nat → Bool)
    (p_statbuf : iso9660_statv2_t) :
    (∃ post, neededLsns p_statbuf = (isofile_extract src ferror p_statbuf).2.reads ++ post) ∧
    (∀ l ∈ (isofile_extract src ferror p_statbuf).2.reads, ¬ readOk src l →
      (isofile_extract src ferror p_statbuf).1 = 4 ∧
      (isofile_extract src ferror p_statbuf).2.err_lsn = some l ∧
      ∃ pre, (isofile_extract src ferror p_statbuf).2.reads = pre ++ [l] ∧
        ∀ x ∈ pre, readOk src x) ∧
    ((isofile_extract src ferror p_statbuf).1 = 4 →
      ∃ pre l, (isofile_extract src ferror p_statbuf).2.reads = pre ++ [l] ∧
        ¬ readOk src l ∧ (∀ x ∈ pre, readOk src x) ∧
        (isofile_extract src ferror p_statbuf).2.err_lsn = some l) ∧
    ((isofile_extract src ferror p_statbuf).1 = 0 →
      (isofile_extract src ferror p_statbuf).2.reads = neededLsns p_statbuf ∧
      (∀ l ∈ neededLsns p_statbuf, readOk src l) ∧
      (isofile_extract src ferror p_statbuf).2.out.length = neededBytes p_statbuf ∧
      (isofile_extract src ferror p_statbuf).2.err_lsn = none) ∧
    ((isofile_extract src ferror p_statbuf).1 = 5 → ∃ k, ferror k = true) ∧
    ((isofile_extract src ferror p_statbuf).1 = 0 ∨
      (isofile_extract src ferror p_statbuf).1 = 4 ∨
      (isofile_extract src ferror p_statbuf).1 = 5) ∧
    ((∀ k, ferror k = false) → (∃ l ∈ neededLsns p_statbuf, ¬ readOk src l) →
      (isofile_extract src ferror p_statbuf).1 = 4) := by
  obtain ⟨X, post, h1, h2, h3, h4, h5, h6, h7, h8⟩ :=
    runPlan_spec src ferror (neededPlan p_statbuf) xfer_state.init
  rw [isofile_extract_eq]
  rw [neededPlan_lsns] at h2 h8
  generalize runPlan src ferror (neededPlan p_statbuf) xfer_state.init = r at *
  obtain ⟨rc, st⟩ := r
  have hX : st.reads = X := by
    simpa [xfer_state.init] using h1
  simp only at h3 h4 h5 h6 h7
  rcases h7 with h | h | h
  · subst h
    have hfin : finish ((none : Option Nat), st) = (0, st) := rfl
    rw [hfin]
    dsimp only
    obtain ⟨a1, a2, a3, a4⟩ := h4 rfl
    subst a1
    rw [List.append_nil] at h2
    have hall : ∀ l ∈ neededLsns p_statbuf, readOk src l := by
      rw [h2]
      exact a2
    refine ⟨⟨[], by rw [hX, h2, List.append_nil]⟩, ?_, ?_, ?_, ?_, Or.inl rfl, ?_⟩
    · intro l hl hnot
      rw [hX] at hl
      exact absurd (a2 l hl) hnot
    · intro hc
      simp at hc
    · intro _
      refine ⟨by rw [hX, h2], hall, ?_, ?_⟩
      · rw [a3]
        simpa [xfer_state.init] using neededPlan_bytes_length src p_statbuf hall
      · rw [a4]
        rfl
    · intro hc
      simp at hc
    · intro hw hex
      have := h8 hw hex
      simp at this
  · subst h
    have hfin : finish (some 4, st) = (4, st) := rfl
    rw [hfin]
    dsimp only
    refine ⟨⟨post, by rw [hX, h2]⟩, ?_, ?_, ?_, ?_, Or.inr (Or.inl rfl), ?_⟩
    · intro l hl hnot
      rw [hX] at hl ⊢
      obtain ⟨-, b2, b3⟩ := h3 l hl hnot
      exact ⟨rfl, b2, b3⟩
    · intro _
      rw [hX]
      exact h5 rfl
    · intro hc
      simp at hc
    · intro hc
      simp at hc
    · intro _ _
      rfl
  · subst h
    have hfin : finish (some 5, st) = (5, st) := rfl
    rw [hfin]
    dsimp only
    refine ⟨⟨post, by rw [hX, h2]⟩, ?_, ?_, ?_, ?_, Or.inr (Or.inr rfl), ?_⟩
    · intro l hl hnot
      rw [hX] at hl
      obtain ⟨b1, -, -⟩ := h3 l hl hnot
      simp at b1
    · intro hc
      simp at hc
    · intro hc
      simp at hc
    · intro _
      exact h6 rfl
    · intro hw hex
      have := h8 hw hex
      simp at this

theorem sourceUpTo_bad (bad : Int) : ¬ readOk (sourceUpTo bad) bad := by
  unfold readOk sourceUpTo
  simp [ISO_BLOCKSIZE]

/-- C5 at a concrete file: with the blocks from 105 on unreadable, the
extraction of the two-extent file `{100, 2048}`, `{105, 1024}` ends with
code 4. -/
theorem isofile_extract_read_failure_witness :
    (isofile_extract (sourceUpTo 105) noFerror copyingStat).1 = 4 :=
  (isofile_extract_read_failure (sourceUpTo 105) noFerror copyingStat).2.2.2.2.2.2
    (fun _ => rfl) ⟨105, by decide, sourceUpTo_bad 105⟩

/-! ## The endianness detector -/

theorem GoodTrace_refl (ev : List drive_event) : GoodTrace ev ev :=
  ⟨[], by simp, by simp⟩

theorem GoodTrace_trans (a b c : List drive_event) (h1 : GoodTrace a b) (h2 : GoodTrace b c) :
    GoodTrace a c := by
  obtain ⟨n1, e1, g1⟩ := h1
  obtain ⟨n2, e2, g2⟩ := h2
  refine ⟨n1 ++ n2, by rw [e2, e1, List.append_assoc], ?_⟩
  intro x hx
  rcases List.mem_append.mp hx with h | h
  · exact g1 x h
  · exact g2 x h

theorem GoodTrace_abort (a b c : List drive_event) (h1 : GoodTrace a b) (h2 : AbortTrace b c) :
    AbortTrace a c := by
  obtain ⟨n1, e1, g1⟩ := h1
  obtain ⟨pre, s, n, ret, e2, hret, g2⟩ := h2
  refine ⟨n1 ++ pre, s, n, ret, by rw [e2, e1]; simp, hret, ?_⟩
  intro x hx
  rcases List.mem_append.mp hx with h | h
  · exact g1 x h
  · exact g2 x h

theorem GoodTrace_snoc (ev : List drive_event) (s n ret : Int) (h : ret > 0) :
    GoodTrace ev (ev ++ [drive_event.read_audio s n ret]) := by
  refine ⟨[drive_event.read_audio s n ret], rfl, ?_⟩
  intro x hx
  rw [List.mem_singleton] at hx
  exact ⟨s, n, ret, hx, h⟩

/-- The iteration bound of `scanWindow` is immaterial once it is at least
`lastsector - firstsector`. -/
theorem scanWindow_fuel {F : Type} (env : audio_env F) (d : cdrom_drive_t) (fuel : Nat) :
    ∀ (fuel2 : Nat) (firstsector lastsector : Int) (beginsec : Nat) (buff : Nat → Int)
      (events : List drive_event),
      (lastsector - firstsector).toNat ≤ fuel → (lastsector - firstsector).toNat ≤ fuel2 →
      scanWindow env d fuel firstsector lastsector beginsec buff events
        = scanWindow env d fuel2 firstsector lastsector beginsec buff events := by
  induction fuel with
  | zero =>
    intro fuel2 firstsector lastsector beginsec buff events h1 _
    cases fuel2 with
    | zero => rfl
    | succ fuel2 =>
      rw [scanWindow, scanWindow, if_neg (by omega)]
  | succ fuel ih =>
    intro fuel2 firstsector lastsector beginsec buff events h1 h2
    cases fuel2 with
    | zero =>
      rw [scanWindow, scanWindow, if_neg (by omega)]
    | succ fuel2 =>
      rw [scanWindow, scanWindow]
      by_cases hle : firstsector + 5 ≤ lastsector
      · simp only [if_pos hle]
        split_ifs with hr
        · cases findWindow (env.read_audio d buff firstsector 5).2 with
          | none => exact ih fuel2 _ _ _ _ _ (by omega) (by omega)
          | some b => rfl
        · rfl
      · simp only [if_neg hle]

/-- A window search adds succeeded reads only, or ends with the failed read
and `enable_cdda(d,0)`. -/
theorem scanWindow_trace {F : Type} (env : audio_env F) (d : cdrom_drive_t) (fuel : Nat) :
    ∀ (firstsector lastsector : Int) (beginsec : Nat) (buff : Nat → Int)
      (events : List drive_event),
      match scanWindow env d fuel firstsector lastsector beginsec buff events with
      | window_result.failed _ ev => AbortTrace events ev
      | window_result.done _ _ _ ev => GoodTrace events ev := by
  induction fuel with
  | zero =>
    intro firstsector lastsector beginsec buff events
    exact GoodTrace_refl events
  | succ fuel ih =>
    intro firstsector lastsector beginsec buff events
    rw [scanWindow]
    by_cases hle : firstsector + 5 ≤ lastsector
    · simp only [if_pos hle]
      by_cases hr : (env.read_audio d buff firstsector 5).1 > 0
      · simp only [if_pos hr]
        have hstep := GoodTrace_snoc events firstsector 5 _ hr
        cases hw : findWindow (env.read_audio d buff firstsector 5).2 with
        | some b => exact hstep
        | none =>
          simp only
          have hrec := ih (firstsector + 5) lastsector 5 (env.read_audio d buff firstsector 5).2
            (events ++ [drive_event.read_audio firstsector 5 (env.read_audio d buff firstsector 5).1])
          revert hrec
          cases scanWindow env d fuel (firstsector + 5) lastsector 5
              (env.read_audio d buff firstsector 5).2
              (events ++ [drive_event.read_audio firstsector 5
                (env.read_audio d buff firstsector 5).1]) with
          | failed b ev =>
            intro hrec
            exact GoodTrace_abort _ _ _ hstep hrec
          | done z bs b ev =>
            intro hrec
            exact GoodTrace_trans _ _ _ hstep hrec
      · simp only [if_neg hr]
        exact ⟨[], firstsector, 5, (env.read_audio d buff firstsector 5).1, by simp,
          by omega, by simp⟩
    · simp only [if_neg hle]
      exact GoodTrace_refl events

theorem castVote_events {F : Type} (fl : float_ops F) (st : vote_state F) (a b : F) :
    (castVote fl st a b).events = st.events := by
  unfold castVote
  split_ifs <;> rfl

/-- Votes are cast only together with a count in `checked`. -/
theorem castVote_unchecked {F : Type} (fl : float_ops F) (st : vote_state F) (a b : F)
    (h : st.checked = 0 → st.lsb_votes = fl.zero ∧ st.msb_votes = fl.zero) :
    (castVote fl st a b).checked = 0 →
      (castVote fl st a b).lsb_votes = fl.zero ∧ (castVote fl st a b).msb_votes = fl.zero := by
  unfold castVote
  split_ifs
  · intro hc
    simp at hc
  · intro hc
    simp at hc
  · exact h

theorem castVote_zero {F : Type} (fl : float_ops F) (st : vote_state F) :
    castVote fl st fl.zero fl.zero = st := by
  unfold castVote
  rw [fl.lt_irrefl]
  simp

theorem trackEnergy_trace {F : Type} (env : audio_env F) (d : cdrom_drive_t) (i : Nat)
    (st : vote_state F) :
    (match (trackEnergy env d i st).1 with
      | none => AbortTrace st.events (trackEnergy env d i st).2.events
      | some _ => GoodTrace st.events (trackEnergy env d i st).2.events) ∧
    (trackEnergy env d i st).2.lsb_votes = st.lsb_votes ∧
    (trackEnergy env d i st).2.msb_votes = st.msb_votes ∧
    (trackEnergy env d i st).2.checked = st.checked := by
  unfold trackEnergy
  by_cases ha : env.cdda_track_audiop d (i + 1) = 1
  · simp only [if_pos ha]
    have hw := scanWindow_trace env d
      (env.cdda_track_lastsector d (i + 1) - env.cdda_track_firstsector d (i + 1)).toNat
      (env.cdda_track_firstsector d (i + 1)) (env.cdda_track_lastsector d (i + 1)) 0
      st.buff st.events
    revert hw
    cases scanWindow env d
        (env.cdda_track_lastsector d (i + 1) - env.cdda_track_firstsector d (i + 1)).toNat
        (env.cdda_track_firstsector d (i + 1)) (env.cdda_track_lastsector d (i + 1)) 0
        st.buff st.events with
    | failed b ev =>
      intro hw
      refine ⟨hw, ?_, ?_, ?_⟩ <;> trivial
    | done z bs b ev =>
      intro hw
      by_cases hz : z = 0
      · simp only [if_pos hz]
        refine ⟨hw, ?_, ?_, ?_⟩ <;> trivial
      · simp only [if_neg hz]
        refine ⟨hw, ?_, ?_, ?_⟩ <;> trivial
  · simp only [if_neg ha]
    refine ⟨GoodTrace_refl _, ?_, ?_, ?_⟩ <;> trivial

theorem scanTracks_cons_none {F : Type} (env : audio_env F) (d : cdrom_drive_t) (i : Nat)
    (rest : List Nat) (st st1 : vote_state F) (h : trackEnergy env d i st = (none, st1)) :
    scanTracks env d (i :: rest) st = (true, st1) := by
  rw [scanTracks, h]

theorem scanTracks_cons_break {F : Type} (env : audio_env F) (d : cdrom_drive_t) (i : Nat)
    (rest : List Nat) (st st1 : vote_state F) (a b : F)
    (h : trackEnergy env d i st = (some (a, b), st1))
    (hbrk : (castVote env.fl st1 a b).checked = 5 ∧
      (env.fl.eq (castVote env.fl st1 a b).lsb_votes env.fl.zero ||
        env.fl.eq (castVote env.fl st1 a b).msb_votes env.fl.zero) = true) :
    scanTracks env d (i :: rest) st = (false, castVote env.fl st1 a b) := by
  rw [scanTracks, h]
  simp only
  rw [if_pos hbrk]

theorem scanTracks_cons_continue {F : Type} (env : audio_env F) (d : cdrom_drive_t) (i : Nat)
    (rest : List Nat) (st st1 : vote_state F) (a b : F)
    (h : trackEnergy env d i st = (some (a, b), st1))
    (hbrk : ¬ ((castVote env.fl st1 a b).checked = 5 ∧
      (env.fl.eq (castVote env.fl st1 a b).lsb_votes env.fl.zero ||
        env.fl.eq (castVote env.fl st1 a b).msb_votes env.fl.zero) = true)) :
    scanTracks env d (i :: rest) st = scanTracks env d rest (castVote env.fl st1 a b) := by
  rw [scanTracks, h]
  simp only
  rw [if_neg hbrk]

/-- The track loop adds succeeded reads only, unless it returns from inside,
and then it ends with the failed read and `enable_cdda(d,0)`; votes exist only
when tracks were counted. -/
theorem scanTracks_trace {F : Type} (env : audio_env F) (d : cdrom_drive_t) (l : List Nat) :
    ∀ st : vote_state F,
      ((scanTracks env d l st).1 = true →
        AbortTrace st.events (scanTracks env d l st).2.events) ∧
      ((scanTracks env d l st).1 = false →
        GoodTrace st.events (scanTracks env d l st).2.events) ∧
      ((st.checked = 0 → st.lsb_votes = env.fl.zero ∧ st.msb_votes = env.fl.zero) →
        (scanTracks env d l st).2.checked = 0 →
        (scanTracks env d l st).2.lsb_votes = env.fl.zero ∧
        (scanTracks env d l st).2.msb_votes = env.fl.zero) := by
  induction l with
  | nil =>
    intro st
    refine ⟨?_, fun _ => GoodTrace_refl _, fun h => h⟩
    intro h
    simp [scanTracks] at h
  | cons i rest ih =>
    intro st
    obtain ⟨ht, hl, hm, hc⟩ := trackEnergy_trace env d i st
    cases hte : trackEnergy env d i st with
    | mk en st1 =>
      rw [hte] at ht hl hm hc
      simp only at hl hm hc
      cases en with
      | none =>
        simp only at ht
        rw [scanTracks_cons_none env d i rest st st1 hte]
        refine ⟨fun _ => ht, ?_, ?_⟩
        · intro h
          simp at h
        · intro h hz
          simp only at hz ⊢
          rw [hl, hm]
          exact h (by rw [← hc]; exact hz)
      | some e =>
        obtain ⟨a, b⟩ := e
        simp only at ht
        have hinv : (st.checked = 0 → st.lsb_votes = env.fl.zero ∧ st.msb_votes = env.fl.zero) →
            (castVote env.fl st1 a b).checked = 0 →
            (castVote env.fl st1 a b).lsb_votes = env.fl.zero ∧
            (castVote env.fl st1 a b).msb_votes = env.fl.zero := by
          intro h
          apply castVote_unchecked
          rw [hl, hm, hc]
          exact h
        have hev : GoodTrace st.events (castVote env.fl st1 a b).events := by
          rw [castVote_events]
          exact ht
        by_cases hbrk : (castVote env.fl st1 a b).checked = 5 ∧
            (env.fl.eq (castVote env.fl st1 a b).lsb_votes env.fl.zero ||
              env.fl.eq (castVote env.fl st1 a b).msb_votes env.fl.zero) = true
        · rw [scanTracks_cons_break env d i rest st st1 a b hte hbrk]
          refine ⟨?_, fun _ => hev, hinv⟩
          intro h
          simp at h
        · rw [scanTracks_cons_continue env d i rest st st1 a b hte hbrk]
          obtain ⟨i1, i2, i3⟩ := ih (castVote env.fl st1 a b)
          exact ⟨fun h => GoodTrace_abort _ _ _ hev (i1 h),
            fun h => GoodTrace_trans _ _ _ hev (i2 h), fun h => i3 (hinv h)⟩

theorem goodRead_pos (s n ret : Int) (h : goodRead (drive_event.read_audio s n ret)) :
    ret > 0 := by
  obtain ⟨s2, n2, r2, e, hr⟩ := h
  injection e with _ _ e3
  rw [e3]
  exact hr

theorem data_bigendianp_abort {F : Type} (env : audio_env F) (d : cdrom_drive_t)
    (buff0 : Nat → Int) (st : vote_state F)
    (h : scanTracks env { d with bigendianp := -1 } (List.range d.tracks) (initVotes env buff0)
      = (true, st)) :
    data_bigendianp env d buff0 =
      { ret := -1, drive := { d with bigendianp := -1 }, lsb_votes := st.lsb_votes,
        msb_votes := st.msb_votes, checked := st.checked, events := st.events } := by
  unfold data_bigendianp
  simp only [h]

theorem data_bigendianp_finish {F : Type} (env : audio_env F) (d : cdrom_drive_t)
    (buff0 : Nat → Int) (st : vote_state F)
    (h : scanTracks env { d with bigendianp := -1 } (List.range d.tracks) (initVotes env buff0)
      = (false, st)) :
    data_bigendianp env d buff0 =
      { ret := if env.fl.lt st.msb_votes st.lsb_votes then 0
               else if env.fl.lt st.lsb_votes st.msb_votes then 1
               else env.bigendianp,
        drive := d, lsb_votes := st.lsb_votes, msb_votes := st.msb_votes,
        checked := st.checked, events := st.events ++ [drive_event.enable_cdda 0] } := by
  unfold data_bigendianp
  simp only [h]

/-- The two ways `data_bigendianp` ends, with the calls it has made. -/
theorem data_bigendianp_cases {F : Type} (env : audio_env F) (d : cdrom_drive_t)
    (buff0 : Nat → Int) :
    ((data_bigendianp env d buff0).ret = -1 ∧
      (data_bigendianp env d buff0).drive = { d with bigendianp := -1 } ∧
      AbortTrace [drive_event.enable_cdda 1] (data_bigendianp env d buff0).events) ∨
    ((data_bigendianp env d buff0).ret =
        (if env.fl.lt (data_bigendianp env d buff0).msb_votes
            (data_bigendianp env d buff0).lsb_votes then 0
         else if env.fl.lt (data_bigendianp env d buff0).lsb_votes
            (data_bigendianp env d buff0).msb_votes then 1
         else env.bigendianp) ∧
      (data_bigendianp env d buff0).drive = d ∧
      (∃ mid, (data_bigendianp env d buff0).events
          = [drive_event.enable_cdda 1] ++ mid ++ [drive_event.enable_cdda 0] ∧
        ∀ x ∈ mid, goodRead x) ∧
      ((data_bigendianp env d buff0).checked = 0 →
        (data_bigendianp env d buff0).lsb_votes = env.fl.zero ∧
        (data_bigendianp env d buff0).msb_votes = env.fl.zero)) := by
  obtain ⟨h1, h2, h3⟩ := scanTracks_trace env { d with bigendianp := -1 }
    (List.range d.tracks) (initVotes env buff0)
  cases hr : scanTracks env { d with bigendianp := -1 } (List.range d.tracks)
      (initVotes env buff0) with
  | mk ab st =>
    rw [hr] at h1 h2 h3
    cases ab with
    | true =>
      left
      rw [data_bigendianp_abort env d buff0 st hr]
      exact ⟨rfl, rfl, h1 rfl⟩
    | false =>
      right
      rw [data_bigendianp_finish env d buff0 st hr]
      obtain ⟨mid, e, g⟩ := h2 rfl
      refine ⟨rfl, rfl, ⟨mid, ?_, g⟩, h3 (fun _ => ⟨rfl, rfl⟩)⟩
      simp only at e
      simp only [e]
      rfl

theorem trackEnergy_not_audio {F : Type} (env : audio_env F) (d : cdrom_drive_t) (i : Nat)
    (st : vote_state F) (h : env.cdda_track_audiop d (i + 1) ≠ 1) :
    trackEnergy env d i st = (some (env.fl.zero, env.fl.zero), st) := by
  unfold trackEnergy
  rw [if_neg h]

/-- Tracks that are not audio leave the locals of the track loop unchanged. -/
theorem scanTracks_not_audio {F : Type} (env : audio_env F) (d : cdrom_drive_t) (l : List Nat)
    (st : vote_state F) (h : ∀ i ∈ l, env.cdda_track_audiop d (i + 1) ≠ 1)
    (hc : st.checked ≠ 5) : scanTracks env d l st = (false, st) := by
  induction l with
  | nil => rfl
  | cons i rest ih =>
    have hte := trackEnergy_not_audio env d i st (h i (List.mem_cons_self _ _))
    rw [scanTracks_cons_continue env d i rest st st env.fl.zero env.fl.zero hte
      (by rw [castVote_zero]; exact fun hb => hc hb.1), castVote_zero]
    exact ih (fun j hj => h j (List.mem_cons_of_mem _ hj))

/-- C8: on every run in which no audio read fails, `data_bigendianp` returns 0
when the accumulated little-endian votes strictly exceed the big-endian votes,
1 when the big-endian votes strictly exceed the little-endian votes, and the
platform default `bigendianp()` in every other case; when no track was counted
as checked (no track whose two energies differ) both totals are still 0 and
the platform default is returned, and that is so when no track is audio. -/
theorem data_bigendianp_decision {F : Type} (env : audio_env F) (d : cdrom_drive_t)
    (buff0 : Nat → Int)
    (hok : ∀ s n ret, drive_event.read_audio s n ret ∈ (data_bigendianp env d buff0).events →
      ret > 0) :
    (data_bigendianp env d buff0).ret =
        (if env.fl.lt (data_bigendianp env d buff0).msb_votes
            (data_bigendianp env d buff0).lsb_votes then 0
         else if env.fl.lt (data_bigendianp env d buff0).lsb_votes
            (data_bigendianp env d buff0).msb_votes then 1
         else env.bigendianp) ∧
    ((data_bigendianp env d buff0).checked = 0 →
      (data_bigendianp env d buff0).lsb_votes = env.fl.zero ∧
      (data_bigendianp env d buff0).msb_votes = env.fl.zero ∧
      (data_bigendianp env d buff0).ret = env.bigendianp) ∧
    ((∀ i, i < d.tracks → env.cdda_track_audiop { d with bigendianp := -1 } (i + 1) ≠ 1) →
      (data_bigendianp env d buff0).checked = 0) := by
  have hdec : (data_bigendianp env d buff0).ret =
        (if env.fl.lt (data_bigendianp env d buff0).msb_votes
            (data_bigendianp env d buff0).lsb_votes then 0
         else if env.fl.lt (data_bigendianp env d buff0).lsb_votes
            (data_bigendianp env d buff0).msb_votes then 1
         else env.bigendianp) ∧
      ((data_bigendianp env d buff0).checked = 0 →
        (data_bigendianp env d buff0).lsb_votes = env.fl.zero ∧
        (data_bigendianp env d buff0).msb_votes = env.fl.zero) := by
    rcases data_bigendianp_cases env d buff0 with h | h
    · obtain ⟨-, -, pre, s, n, ret, e, hret, -⟩ := h
      have := hok s n ret (by rw [e]; simp)
      omega
    · exact ⟨h.1, h.2.2.2⟩
  obtain ⟨hret, hz⟩ := hdec
  refine ⟨hret, ?_, ?_⟩
  · intro hc
    obtain ⟨z1, z2⟩ := hz hc
    refine ⟨z1, z2, ?_⟩
    rw [hret, z1, z2, env.fl.lt_irrefl]
    simp
  · intro hna
    have hrun := scanTracks_not_audio env { d with bigendianp := -1 } (List.range d.tracks)
      (initVotes env buff0) (fun i hi => hna i (List.mem_range.mp hi))
      (by simp [initVotes])
    rw [data_bigendianp_finish env d buff0 _ hrun]
    rfl

theorem tie_run_events :
    (data_bigendianp (testEnv [1, 2, 3] 100000 3 3 7) (testDrive 3 0) (fun _ => 0)).events
      = [drive_event.enable_cdda 1, drive_event.read_audio 1000 5 5,
         drive_event.read_audio 2000 5 5, drive_event.read_audio 3000 5 5,
         drive_event.enable_cdda 0] := by
  decide

theorem tie_run_reads (s n ret : Int)
    (h : drive_event.read_audio s n ret ∈
      (data_bigendianp (testEnv [1, 2, 3] 100000 3 3 7) (testDrive 3 0) (fun _ => 0)).events) :
    ret > 0 := by
  rw [tie_run_events] at h
  simp only [List.mem_cons, List.mem_singleton, List.not_mem_nil, or_false] at h
  rcases h with h | h | h | h | h <;> cases h <;> decide

/-- C8 at concrete drives (three audio tracks, every read succeeds, platform
default 7): energies 1 against 2 give 0, energies 2 against 1 give 1, equal
energies leave both totals 0 and give the default. -/
theorem data_bigendianp_decision_witness :
    (data_bigendianp (testEnv [1, 2, 3] 100000 1 2 7) (testDrive 3 0) (fun _ => 0)).ret = 0 ∧
    (data_bigendianp (testEnv [1, 2, 3] 100000 2 1 7) (testDrive 3 0) (fun _ => 0)).ret = 1 ∧
    (data_bigendianp (testEnv [1, 2, 3] 100000 3 3 7) (testDrive 3 0) (fun _ => 0)).lsb_votes
      = 0 ∧
    (data_bigendianp (testEnv [1, 2, 3] 100000 3 3 7) (testDrive 3 0) (fun _ => 0)).msb_votes
      = 0 ∧
    (data_bigendianp (testEnv [1, 2, 3] 100000 3 3 7) (testDrive 3 0) (fun _ => 0)).ret = 7 :=
  ⟨by decide, by decide,
    (data_bigendianp_decision (testEnv [1, 2, 3] 100000 3 3 7) (testDrive 3 0)
      (fun _ => 0) tie_run_reads).2.1 (by decide)⟩

/-- C9: if an audio read reports failure (a result `<= 0`) then
`data_bigendianp` returns -1, whatever votes were accumulated before; the
failed read is the last read made (every read before it succeeded) and is
followed only by the call `enable_cdda(d,0)`. -/
theorem data_bigendianp_read_failure {F : Type} (env : audio_env F) (d : cdrom_drive_t)
    (buff0 : Nat → Int) (s n ret : Int)
    (hmem : drive_event.read_audio s n ret ∈ (data_bigendianp env d buff0).events)
    (hfail : ret ≤ 0) :
    (data_bigendianp env d buff0).ret = -1 ∧
    ∃ pre, (data_bigendianp env d buff0).events
        = [drive_event.enable_cdda 1] ++ pre ++
          [drive_event.read_audio s n ret, drive_event.enable_cdda 0] ∧
      ∀ x ∈ pre, goodRead x := by
  rcases data_bigendianp_cases env d buff0 with h | h
  · obtain ⟨hr, -, pre, s2, n2, ret2, e, -, g⟩ := h
    refine ⟨hr, pre, ?_, g⟩
    rw [e] at hmem
    simp only [List.mem_append, List.mem_cons, List.mem_singleton, List.not_mem_nil,
      or_false] at hmem
    rcases hmem with (hm | hm) | hm | hm
    · cases hm
    · have := goodRead_pos s n ret (g _ hm)
      omega
    · rw [e, hm]
    · cases hm
  · obtain ⟨-, -, ⟨mid, e, g⟩, -⟩ := h
    rw [e] at hmem
    simp only [List.mem_append, List.mem_cons, List.mem_singleton, List.not_mem_nil,
      or_false] at hmem
    rcases hmem with (hm | hm) | hm
    · cases hm
    · have := goodRead_pos s n ret (g _ hm)
      omega
    · cases hm

/-- C9 at a concrete drive: tracks 1 to 3 are audio, reads from sector 2000 on
fail; the first track votes, the read of the second track fails and -1 is
returned after exactly these calls. -/
theorem data_bigendianp_read_failure_witness :
    (data_bigendianp (testEnv [1, 2, 3] 2000 2 1 7) (testDrive 3 0) (fun _ => 0)).ret = -1 ∧
    (data_bigendianp (testEnv [1, 2, 3] 2000 2 1 7) (testDrive 3 0) (fun _ => 0)).events
      = [drive_event.enable_cdda 1, drive_event.read_audio 1000 5 5,
         drive_event.read_audio 2000 5 (-1), drive_event.enable_cdda 0] :=
  ⟨(data_bigendianp_read_failure (testEnv [1, 2, 3] 2000 2 1 7) (testDrive 3 0) (fun _ => 0)
      2000 5 (-1) (by decide) (by decide)).1, by decide⟩

/-! ## The filesystem accessor: forward against reverse lookup -/

theorem listRecords_stats (d : iso_dir) :
    ∀ pre : List String, (listRecords pre d).map Prod.fst = listStats d := by
  induction d with
  | nil =>
    intro pre
    rfl
  | entry n stat sub rest ihs ihr =>
    intro pre
    simp only [listRecords, listStats, List.map_cons, List.map_append, ihs, ihr]

/-- The reverse lookup with path returns the record of the reverse lookup
without path. -/
theorem find_lsn_with_path_fst (p_iso : iso9660_t) (lsn : Int) :
    (iso9660_ifs_find_lsn_with_path_v2 p_iso lsn).map Prod.fst
      = iso9660_ifs_find_lsn_v2 p_iso lsn := by
  unfold iso9660_ifs_find_lsn_with_path_v2 iso9660_ifs_find_lsn_v2
  rw [← listRecords_stats p_iso.records [], List.find?_map]
  rfl

theorem lookupName_mem (name : String) (d : iso_dir) :
    ∀ (stat : iso9660_statv2_t) (sub : iso_dir), lookupName name d = some (stat, sub) →
      stat ∈ listStats d ∧ ∀ x ∈ listStats sub, x ∈ listStats d := by
  induction d with
  | nil =>
    intro stat sub h
    simp [lookupName] at h
  | entry n s1 sub1 rest _ ihr =>
    intro stat sub h
    rw [lookupName] at h
    by_cases hn : n = name
    · rw [if_pos hn] at h
      injection h with h
      injection h with h1 h2
      subst h1
      subst h2
      refine ⟨by simp [listStats], ?_⟩
      intro x hx
      simp [listStats, hx]
    · rw [if_neg hn] at h
      obtain ⟨a1, a2⟩ := ihr stat sub h
      refine ⟨by simp [listStats, a1], ?_⟩
      intro x hx
      simp [listStats, a2 x hx]

/-- A record reached by walking a path is one of the directory records. -/
theorem walkPath_mem (path : List String) :
    ∀ (d : iso_dir) (stat : iso9660_statv2_t), walkPath path d = some stat →
      stat ∈ listStats d := by
  induction path with
  | nil =>
    intro d stat h
    simp [walkPath] at h
  | cons c cs ih =>
    intro d stat h
    cases cs with
    | nil =>
      rw [walkPath] at h
      cases hl : lookupName c d with
      | none =>
        rw [hl] at h
        simp at h
      | some r =>
        obtain ⟨s1, sub⟩ := r
        rw [hl] at h
        simp only [Option.map_some', Option.some.injEq] at h
        subst h
        exact (lookupName_mem c d s1 sub hl).1
    | cons c2 cs2 =>
      rw [walkPath] at h
      cases hl : lookupName c d with
      | none =>
        rw [hl] at h
        simp at h
      | some r =>
        obtain ⟨s1, sub⟩ := r
        rw [hl] at h
        simp only at h
        exact (lookupName_mem c d s1 sub hl).2 stat (ih sub stat h)

/-- A record whose first extent is not empty owns the first block of that
extent. -/
theorem ownsLsn_first (stat : iso9660_statv2_t) (e0 : iso9660_extent_descr_t)
    (tail : List iso9660_extent_descr_t) (h : stat.extents = e0 :: tail) (hpos : 0 < e0.size) :
    ownsLsn stat e0.lsn = true := by
  unfold ownsLsn
  rw [h, List.any_cons]
  have hc : 0 < CEILING e0.size ISO_BLOCKSIZE := by
    unfold CEILING ISO_BLOCKSIZE
    omega
  have h1 : decide (e0.lsn ≤ e0.lsn) = true := by simp
  have h2 : decide (e0.lsn < e0.lsn + (CEILING e0.size ISO_BLOCKSIZE : Nat)) = true := by
    simp only [decide_eq_true_eq]
    omega
  rw [h1, h2]
  rfl

/-- An entry reached by a path of at least one component, with a first extent
that is not empty, is reachable by the LSN of that extent. -/
theorem find_lsn_of_stat (p_iso : iso9660_t) (path : List String) (stat : iso9660_statv2_t)
    (e0 : iso9660_extent_descr_t) (tail : List iso9660_extent_descr_t)
    (hpath : path ≠ []) (hstat : iso9660_ifs_statv2 p_iso path = some stat)
    (hext : stat.extents = e0 :: tail) (hpos : 0 < e0.size) :
    (iso9660_ifs_find_lsn_v2 p_iso e0.lsn).isSome = true := by
  unfold iso9660_ifs_find_lsn_v2
  rw [List.find?_isSome]
  refine ⟨stat, ?_, ownsLsn_first stat e0 tail hext hpos⟩
  cases path with
  | nil => exact absurd rfl hpath
  | cons c cs => exact walkPath_mem (c :: cs) p_iso.records stat hstat

/-- C10 as stated fails in the model of the accessor, in three ways.
(1) Two files claim block 101: `C` is reachable by path and its first extent
starts at 101, but the reverse lookups of 101 resolve to `A` and report
another first LSN and total size.  (2) The empty file `B` is given block 100
of the file `A`: the reverse lookups of 100 resolve to `A`.  (3) The root
reached as `"/"` is answered from the volume descriptor with one extent, the
reverse lookup of its LSN finds the record `.` with two. -/
theorem stat_find_lsn_counterexample :
    (iso9660_ifs_statv2 overlapImage ["C"] = some (fileStat [(101, 2048)]) ∧
      (fileStat [(101, 2048)]).extents.head?.map (fun e => e.lsn) = some 101 ∧
      iso9660_ifs_find_lsn_v2 overlapImage 101 = some (fileStat [(100, 4096)]) ∧
      iso9660_ifs_find_lsn_with_path_v2 overlapImage 101
        = some (fileStat [(100, 4096)], ["A"]) ∧
      ¬ statAgree (fileStat [(101, 2048)]) (fileStat [(100, 4096)])) ∧
    (iso9660_ifs_statv2 sharedBlockImage ["B"] = some (fileStat [(100, 0)]) ∧
      (fileStat [(100, 0)]).extents.head?.map (fun e => e.lsn) = some 100 ∧
      iso9660_ifs_find_lsn_v2 sharedBlockImage 100 = some (fileStat [(100, 2048)]) ∧
      iso9660_ifs_find_lsn_with_path_v2 sharedBlockImage 100
        = some (fileStat [(100, 2048)], ["A"]) ∧
      ¬ statAgree (fileStat [(100, 0)]) (fileStat [(100, 2048)])) ∧
    (iso9660_ifs_statv2 continuedRootImage [] = some (dirStat 20 2048) ∧
      (dirStat 20 2048).extents.head?.map (fun e => e.lsn) = some 20 ∧
      iso9660_ifs_find_lsn_v2 continuedRootImage 20 = some continuedRootStat ∧
      ¬ statAgree (dirStat 20 2048) continuedRootStat) := by
  decide

/-- C10 amended: for an entry reachable by a path of at least one component
whose first extent starts at LSN `l` and is not empty, if every directory
record that has an extent containing block `l` carries the same number of
extents, first-extent LSN, total size and type as the entry (in particular if
the entry is the only owner of block `l`), then both reverse lookups of `l`
succeed, return one and the same record, and that record agrees with the
record of `stat(path)` in these four values. -/
theorem stat_find_lsn_agree (p_iso : iso9660_t) (path : List String)
    (stat : iso9660_statv2_t) (e0 : iso9660_extent_descr_t)
    (tail : List iso9660_extent_descr_t)
    (hpath : path ≠ [])
    (hstat : iso9660_ifs_statv2 p_iso path = some stat)
    (hext : stat.extents = e0 :: tail) (hpos : 0 < e0.size)
    (hown : ∀ r ∈ listStats p_iso.records, ownsLsn r e0.lsn = true → statAgree stat r) :
    ∃ (stat2 : iso9660_statv2_t) (psz_path : List String),
      iso9660_ifs_find_lsn_v2 p_iso e0.lsn = some stat2 ∧
      iso9660_ifs_find_lsn_with_path_v2 p_iso e0.lsn = some (stat2, psz_path) ∧
      statAgree stat stat2 := by
  obtain ⟨stat2, h2⟩ := Option.isSome_iff_exists.mp
    (find_lsn_of_stat p_iso path stat e0 tail hpath hstat hext hpos)
  have hmem : stat2 ∈ listStats p_iso.records := by
    unfold iso9660_ifs_find_lsn_v2 at h2
    exact List.mem_of_find?_eq_some h2
  have hp : ownsLsn stat2 e0.lsn = true := by
    unfold iso9660_ifs_find_lsn_v2 at h2
    exact List.find?_some (p := fun stat => ownsLsn stat e0.lsn) h2
  have h3 := find_lsn_with_path_fst p_iso e0.lsn
  rw [h2] at h3
  cases hw : iso9660_ifs_find_lsn_with_path_v2 p_iso e0.lsn with
  | none =>
    rw [hw] at h3
    simp at h3
  | some r =>
    obtain ⟨s3, p⟩ := r
    rw [hw] at h3
    simp only [Option.map_some', Option.some.injEq] at h3
    subst h3
    exact ⟨s3, p, h2, rfl, hown s3 hmem hp⟩

theorem plainImage_owner (r : iso9660_statv2_t) (h : r ∈ listStats plainImage.records)
    (ho : ownsLsn r 100 = true) :
    statAgree (fileStat [(100, 2048), (105, 1024)]) r := by
  have hl : listStats plainImage.records
      = [dirStat 20 2048, dirStat 21 2048, fileStat [(100, 2048), (105, 1024)]] := by
    decide
  rw [hl] at h
  simp only [List.mem_cons, List.mem_singleton, List.not_mem_nil, or_false] at h
  rcases h with h | h | h
  · subst h
    revert ho
    decide
  · subst h
    revert ho
    decide
  · subst h
    decide

/-- C10 amended, at a concrete image: the file `/D/F` of two extents (blocks
100 and 105) is the only owner of block 100; the lookup by path and the two
lookups by LSN 100 agree. -/
theorem stat_find_lsn_agree_witness :
    ∃ (stat2 : iso9660_statv2_t) (psz_path : List String),
      iso9660_ifs_find_lsn_v2 plainImage 100 = some stat2 ∧
      iso9660_ifs_find_lsn_with_path_v2 plainImage 100 = some (stat2, psz_path) ∧
      statAgree (fileStat [(100, 2048), (105, 1024)]) stat2 :=
  stat_find_lsn_agree plainImage ["D", "F"] (fileStat [(100, 2048), (105, 1024)])
    { lsn := 100, size := 2048 } [{ lsn := 105, size := 1024 }]
    (by decide) (by decide) (by decide) (by decide) plainImage_owner

/-! ## Drive identification -/

theorem cString_ne_empty (bytes : List Char) (h : bytes.headD NUL ≠ NUL) :
    cString bytes ≠ "" := by
  cases bytes with
  | nil => exact absurd rfl h
  | cons c rest =>
    have hc : (c != NUL) = true := by
      simpa using h
    unfold cString
    rw [List.takeWhile_cons, if_pos hc]
    intro he
    have h2 : (c :: List.takeWhile (fun c => c != NUL) rest) = [] :=
      congrArg String.data he
    simp at h2

/-- A string that ends inside the first part of the memory does not reach the
second part. -/
theorem cString_append (l1 l2 : List Char) (h : l1.contains NUL = true) :
    cString (l1 ++ l2) = cString l1 := by
  unfold cString
  congr 1
  induction l1 with
  | nil => simp at h
  | cons c rest ih =>
    rw [List.cons_append, List.takeWhile_cons, List.takeWhile_cons]
    by_cases hc : (c != NUL) = true
    · rw [if_pos hc, if_pos hc]
      congr 1
      apply ih
      have hne : c ≠ NUL := by simpa using hc
      simp only [List.contains_cons, Bool.or_eq_true, beq_iff_eq] at h
      rcases h with h | h
      · exact absurd h.symm hne
      · exact h
    · rw [if_neg hc, if_neg hc]

theorem strdup_ne_empty (mem : List Char) (s : String) (h : mem.headD NUL ≠ NUL)
    (hs : strdup mem = some s) : s ≠ "" := by
  unfold strdup at hs
  split_ifs at hs
  injection hs with hs
  rw [← hs]
  exact cString_ne_empty mem h

/-- Where `atapi_drive_info` and the intended result agree.  A failed query
gives "Generic Unidentifiable CDROM", a successful query with a NUL as first
model byte gives "Generic Unidentifiable ATAPI CDROM", and a successful query
whose 40-byte member holds a non-empty string ended by a NUL inside the member
gives that model string.  A string that is returned is never empty. -/
theorem atapi_drive_info_cases (ioctl : Int → identity_query) (fd : Int) :
    ((ioctl fd).result ≠ 0 →
      atapi_drive_info ioctl fd = some "Generic Unidentifiable CDROM") ∧
    ((ioctl fd).result = 0 → ((ioctl fd).model ++ (ioctl fd).after).headD NUL = NUL →
      atapi_drive_info ioctl fd = some "Generic Unidentifiable ATAPI CDROM") ∧
    ((ioctl fd).result = 0 → ((ioctl fd).model ++ (ioctl fd).after).headD NUL ≠ NUL →
      (ioctl fd).model.contains NUL = true →
      atapi_drive_info ioctl fd = some (modelString (ioctl fd))) ∧
    (∀ s, atapi_drive_info ioctl fd = some s → s ≠ "") := by
  unfold atapi_drive_info
  simp only
  refine ⟨?_, ?_, ?_, ?_⟩
  · intro hr
    rw [if_neg hr]
  · intro hr hm
    rw [if_pos hr, if_pos hm]
  · intro hr hm hz
    rw [if_pos hr, if_neg hm]
    unfold strdup modelString
    have hc : ((ioctl fd).model ++ (ioctl fd).after).contains NUL = true := by
      simp only [List.contains_eq_any_beq, List.any_append, Bool.or_eq_true] at hz ⊢
      exact Or.inl hz
    rw [if_pos hc, cString_append _ _ hz]
  · intro s hs
    by_cases hr : (ioctl fd).result = 0
    · rw [if_pos hr] at hs
      by_cases hm : ((ioctl fd).model ++ (ioctl fd).after).headD NUL = NUL
      · rw [if_pos hm] at hs
        injection hs with hs
        rw [← hs]
        decide
      · rw [if_neg hm] at hs
        exact strdup_ne_empty _ s hm hs
    · rw [if_neg hr] at hs
      injection hs with hs
      rw [← hs]
      decide

/-- The agreement at concrete drives: a model name ended by NUL bytes inside
the member is returned as it is, whatever follows the member; an empty model
and a failed query give the two generic labels. -/
theorem atapi_drive_info_cases_at :
    atapi_drive_info (identifies "TOSHIBA" ['X', NUL]) 3 = some "TOSHIBA" ∧
    atapi_drive_info (identifies "" ['X', NUL]) 3
      = some "Generic Unidentifiable ATAPI CDROM" ∧
    atapi_drive_info identifyFails 3 = some "Generic Unidentifiable CDROM" :=
  ⟨by decide,
   (atapi_drive_info_cases (identifies "" ['X', NUL]) 3).2.1 (by decide) (by decide),
   (atapi_drive_info_cases identifyFails 3).1 (by decide)⟩

/-- C11 fails on the code.  The identification query succeeds and fills the
40 bytes of `id->model` with the model name "TOSHIBA CD-ROM XM-6202B" padded
with blanks, so the member holds no NUL; the byte after the member is `X` and
the next one NUL.  The model string has 40 characters, but `strdup(id->model)`
runs on past the member and `atapi_drive_info` returns 41 characters, the
model string followed by `X`.  With no NUL after the member either, the read
leaves the buffer and there is no defined result. -/
theorem atapi_drive_info_overrun :
    (identifiesPadded "TOSHIBA CD-ROM XM-6202B" ['X', NUL] 3).result = 0 ∧
    (identifiesPadded "TOSHIBA CD-ROM XM-6202B" ['X', NUL] 3).model.length = 40 ∧
    modelString (identifiesPadded "TOSHIBA CD-ROM XM-6202B" ['X', NUL] 3)
      = "TOSHIBA CD-ROM XM-6202B                 " ∧
    atapi_drive_info (identifiesPadded "TOSHIBA CD-ROM XM-6202B" ['X', NUL]) 3
      = some "TOSHIBA CD-ROM XM-6202B                 X" ∧
    atapi_drive_info (identifiesPadded "TOSHIBA CD-ROM XM-6202B" ['X', NUL]) 3
      ≠ some (modelString (identifiesPadded "TOSHIBA CD-ROM XM-6202B" ['X', NUL] 3)) ∧
    atapi_drive_info (identifiesPadded "TOSHIBA CD-ROM XM-6202B" ['X', 'Y']) 3 = none := by
  decide

/-! ## The fused loop against passes 1 and 2 in order -/

theorem clampStep_other (toc : Nat → TOC) (j i : Nat) (h : i ≠ j) :
    clampStep toc j i = toc i := by
  unfold clampStep
  split_ifs
  · exact setStart_other _ _ _ _ h
  · rfl

theorem localRepairStep_other (n : Nat) (toc : Nat → TOC) (j i : Nat) (h : i ≠ j) :
    localRepairStep n toc j i = toc i := by
  unfold localRepairStep
  split_ifs
  · exact setStart_other _ _ _ _ h
  · rfl

theorem clampStep_self (toc : Nat → TOC) (j : Nat) :
    clampStep toc j j =
      { toc j with dwStartSector :=
          if (toc j).dwStartSector < 0 then 0 else (toc j).dwStartSector } := by
  unfold clampStep
  split_ifs
  · apply TOC_eq
    · exact setStart_bFlags _ _ _ _
    · exact setStart_bTrack _ _ _ _
    · rw [setStart_start, if_pos rfl]
  · rfl

theorem fixupClampStep_self_start (n : Nat) (toc : Nat → TOC) (j : Nat) :
    (fixupClampStep n toc j j).dwStartSector =
      if (j : Int) < (n : Int) - 1 ∧
          (if (toc j).dwStartSector < 0 then 0 else (toc j).dwStartSector)
            > (toc (j + 1)).dwStartSector then 0
      else if (toc j).dwStartSector < 0 then 0 else (toc j).dwStartSector := by
  unfold fixupClampStep
  by_cases hneg : (toc j).dwStartSector < 0
  · simp only [if_pos hneg]
    have e1 : (setStart toc j 0 j).dwStartSector = 0 := by
      rw [setStart_start, if_pos rfl]
    have e2 : (setStart toc j 0 (j + 1)).dwStartSector = (toc (j + 1)).dwStartSector := by
      rw [setStart_start, if_neg (by omega)]
    rw [e1, e2]
    split_ifs
    · rw [setStart_start, if_pos rfl]
    · exact e1
  · simp only [if_neg hneg]
    split_ifs
    · rw [setStart_start, if_pos rfl]
    · rfl

theorem localRepairStep_self_start (n : Nat) (toc : Nat → TOC) (j : Nat) :
    (localRepairStep n toc j j).dwStartSector =
      if (j : Int) < (n : Int) - 1 ∧ (toc j).dwStartSector > (toc (j + 1)).dwStartSector then 0
      else (toc j).dwStartSector := by
  unfold localRepairStep
  split_ifs
  · rw [setStart_start, if_pos rfl]
  · rfl

theorem localRepairStep_bFlags (n : Nat) (toc : Nat → TOC) (j i : Nat) :
    (localRepairStep n toc j i).bFlags = (toc i).bFlags := by
  unfold localRepairStep
  split_ifs
  · exact setStart_bFlags _ _ _ _
  · rfl

theorem localRepairStep_bTrack (n : Nat) (toc : Nat → TOC) (j i : Nat) :
    (localRepairStep n toc j i).bTrack = (toc i).bTrack := by
  unfold localRepairStep
  split_ifs
  · exact setStart_bTrack _ _ _ _
  · rfl

/-- Pass 1 entry by entry: the first `k` entries are clamped, the others
untouched. -/
theorem clampAll_aux (toc : Nat → TOC) (k : Nat) (i : Nat) :
    (List.range k).foldl clampStep toc i = if i < k then clampStep toc i i else toc i := by
  induction k with
  | zero => simp
  | succ k ih =>
    simp only [List.range_succ, List.foldl_append, List.foldl_cons, List.foldl_nil]
    by_cases hik : i = k
    · subst hik
      rw [if_pos (by omega)]
      have hk : (List.range i).foldl clampStep toc i = toc i := by
        rw [ih, if_neg (by omega)]
      generalize (List.range i).foldl clampStep toc = T at hk
      rw [clampStep_self T, clampStep_self toc, hk]
    · rw [clampStep_other _ _ _ hik, ih]
      by_cases hlt : i < k
      · rw [if_pos hlt, if_pos (by omega)]
      · rw [if_neg hlt, if_neg (by omega)]

theorem clampAll_apply (n : Nat) (toc : Nat → TOC) (i : Nat) :
    clampAll n toc i = if i < n then clampStep toc i i else toc i :=
  clampAll_aux toc n i

/-- After `k` steps the fused loop and the two passes in order agree on the
entries below `k`; above, the fused loop still has the input and the two
passes have the clamped table. -/
theorem fused_aux (n : Nat) (toc : Nat → TOC) (k : Nat) (hk : k ≤ n) :
    (∀ i, i < k → (List.range k).foldl (fixupClampStep n) toc i
        = (List.range k).foldl (localRepairStep n) (clampAll n toc) i) ∧
    (∀ i, k ≤ i → (List.range k).foldl (fixupClampStep n) toc i = toc i) ∧
    (∀ i, k ≤ i → (List.range k).foldl (localRepairStep n) (clampAll n toc) i
        = clampAll n toc i) := by
  induction k with
  | zero =>
    refine ⟨?_, ?_, ?_⟩
    · intro i hi
      omega
    · intro i _
      rfl
    · intro i _
      rfl
  | succ k ih =>
    obtain ⟨ih1, ih2, ih3⟩ := ih (by omega)
    simp only [List.range_succ, List.foldl_append, List.foldl_cons, List.foldl_nil]
    refine ⟨?_, ?_, ?_⟩
    · intro i hi
      by_cases hik : i = k
      · subst hik
        generalize hA : (List.range i).foldl (fixupClampStep n) toc = A at ih1 ih2
        generalize hB : (List.range i).foldl (localRepairStep n) (clampAll n toc) = B
          at ih1 ih3
        have a0 : A i = toc i := ih2 i (le_refl _)
        have a1 : A (i + 1) = toc (i + 1) := ih2 (i + 1) (by omega)
        have b0 : B i = clampAll n toc i := ih3 i (le_refl _)
        have b1 : B (i + 1) = clampAll n toc (i + 1) := ih3 (i + 1) (by omega)
        rw [clampAll_apply, if_pos (by omega), clampStep_self] at b0
        have b0s : (B i).dwStartSector
            = if (toc i).dwStartSector < 0 then 0 else (toc i).dwStartSector := by
          rw [b0]
        have b0f : (B i).bFlags = (toc i).bFlags := by
          rw [b0]
        have b0t : (B i).bTrack = (toc i).bTrack := by
          rw [b0]
        have b1s : (i : Int) < (n : Int) - 1 → (B (i + 1)).dwStartSector
            = if (toc (i + 1)).dwStartSector < 0 then 0 else (toc (i + 1)).dwStartSector := by
          intro hlt
          rw [b1, clampAll_apply, if_pos (by omega), clampStep_self]
        apply TOC_eq
        · rw [fixupClampStep_bFlags, localRepairStep_bFlags, a0, b0f]
        · rw [fixupClampStep_bTrack, localRepairStep_bTrack, a0, b0t]
        · rw [fixupClampStep_self_start, localRepairStep_self_start, a0, a1, b0s]
          by_cases hlt : (i : Int) < (n : Int) - 1
          · rw [b1s hlt]
            split_ifs <;> omega
          · have hf1 : ¬ ((i : Int) < (n : Int) - 1 ∧
                (if (toc i).dwStartSector < 0 then 0 else (toc i).dwStartSector)
                  > (toc (i + 1)).dwStartSector) := fun h => hlt h.1
            have hf2 : ¬ ((i : Int) < (n : Int) - 1 ∧
                (if (toc i).dwStartSector < 0 then 0 else (toc i).dwStartSector)
                  > (B (i + 1)).dwStartSector) := fun h => hlt h.1
            rw [if_neg hf1, if_neg hf2]
      · rw [fixupClampStep_other _ _ _ _ hik, localRepairStep_other _ _ _ _ hik]
        exact ih1 i (by omega)
    · intro i hi
      rw [fixupClampStep_other _ _ _ _ (by omega)]
      exact ih2 i (by omega)
    · intro i hi
      rw [localRepairStep_other _ _ _ _ (by omega)]
      exact ih3 i (by omega)

/-- C12: for every table and track count, the single loop of `FixupTOC`
(clamp track `j`, then compare it with the start of track `j+1` as stored at
that moment, which is not yet clamped) leaves the same table as pass 1 of the
specification over all tracks followed by pass 2 as a forward walk. -/
theorem fixupClamp_eq_passes (n : Nat) (toc : Nat → TOC) :
    fixupClamp n toc = localRepair n (clampAll n toc) := by
  obtain ⟨h1, h2, h3⟩ := fused_aux n toc n (le_refl _)
  funext i
  unfold fixupClamp localRepair
  by_cases hi : i < n
  · exact h1 i hi
  · rw [h2 i (by omega), h3 i (by omega), clampAll_apply, if_neg hi]

/-- C12 at a concrete table: for the starts `5, -3, 4, 2` both give
`0, 0, 0, 2`. -/
theorem fixupClamp_eq_passes_witness :
    (List.range 4).map (fun j => (fixupClamp 4 damagedDisc.disc_toc j).dwStartSector)
      = [0, 0, 0, 2] ∧
    (List.range 4).map
        (fun j => (localRepair 4 (clampAll 4 damagedDisc.disc_toc) j).dwStartSector)
      = [0, 0, 0, 2] := by
  rw [← fixupClamp_eq_passes 4 damagedDisc.disc_toc]
  exact ⟨by decide, by decide⟩

/-! ## Pass 3 as a running maximum -/

theorem runMax_ge_all (r : Nat → Int) (j k : Nat) (h : k ≤ j) : r k ≤ runMax r j :=
  le_trans (runMax_ge r k) (runMax_mono r k j h)

theorem runMax_attained (r : Nat → Int) (j : Nat) : ∃ k, k ≤ j ∧ runMax r j = r k := by
  induction j with
  | zero => exact ⟨0, le_refl _, rfl⟩
  | succ j ih =>
    obtain ⟨k, hk, e⟩ := ih
    by_cases hle : runMax r j ≤ r (j + 1)
    · exact ⟨j + 1, le_refl _, max_eq_right hle⟩
    · refine ⟨k, by omega, ?_⟩
      show max (runMax r j) (r (j + 1)) = r k
      rw [max_eq_left (by omega), e]

/-- C13: write `r` for the table after the first loop of `FixupTOC` (passes
1-2).  For every `j < n` the start of track `j` after pass 3 is the maximum of
`r[0], ..., r[j]`: it bounds each of them and is one of them.  It is either
the start `r[j]` itself or, when `r[j]` is smaller than the corrected start of
track `j-1`, that corrected start.  Flags, track numbers and the entries from
`n` on are untouched, and a table that is already non-negative and
non-decreasing is left unchanged by passes 1-3. -/
theorem fixupRaise_running_max (n : Nat) (toc : Nat → TOC) :
    (∀ j, j < n →
      (∀ k, k ≤ j →
        (fixupClamp n toc k).dwStartSector ≤ (fixupPasses n toc j).dwStartSector) ∧
      (∃ k, k ≤ j ∧
        (fixupPasses n toc j).dwStartSector = (fixupClamp n toc k).dwStartSector)) ∧
    (∀ j, j < n →
      (fixupPasses n toc j).dwStartSector = (fixupClamp n toc j).dwStartSector ∨
      (0 < j ∧
        (fixupClamp n toc j).dwStartSector < (fixupPasses n toc (j - 1)).dwStartSector ∧
        (fixupPasses n toc j).dwStartSector = (fixupPasses n toc (j - 1)).dwStartSector)) ∧
    (∀ j, (fixupPasses n toc j).bFlags = (fixupClamp n toc j).bFlags ∧
      (fixupPasses n toc j).bTrack = (fixupClamp n toc j).bTrack ∧
      (n ≤ j → fixupPasses n toc j = fixupClamp n toc j)) ∧
    (SortedTOC n toc → fixupPasses n toc = toc) := by
  refine ⟨?_, ?_, ?_, fixupPasses_id n toc⟩
  · intro j hj
    rw [fixupPasses_start n toc j hj]
    exact ⟨fun k hk => runMax_ge_all _ j k hk, runMax_attained _ j⟩
  · intro j hj
    rw [fixupPasses_start n toc j hj]
    cases j with
    | zero =>
      left
      rfl
    | succ j =>
      rw [Nat.add_sub_cancel, fixupPasses_start n toc j (by omega)]
      by_cases hle : runMax (fun i => (fixupClamp n toc i).dwStartSector) j
          ≤ (fixupClamp n toc (j + 1)).dwStartSector
      · left
        exact max_eq_right hle
      · right
        have hlt : (fixupClamp n toc (j + 1)).dwStartSector
            < runMax (fun i => (fixupClamp n toc i).dwStartSector) j := by omega
        exact ⟨by omega, hlt, max_eq_left (le_of_lt hlt)⟩
  · intro j
    unfold fixupPasses
    exact ⟨fixupRaise_bFlags _ _ _, fixupRaise_bTrack _ _ _, fixupRaise_beyond _ _ _⟩

/-- C13 at concrete tables: the starts `1, 2, 1` come out of passes 1-3 as
`1, 1, 1` (pass 2 zeroes the 2, pass 3 raises the 0 and keeps the rest), and
the sorted starts of the mixed disc are left as they are. -/
theorem fixupRaise_running_max_witness :
    (List.range 3).map
        (fun j => (fixupClamp 3 (tocOfList [(0, 1), (0, 2), (0, 1)]) j).dwStartSector)
      = [1, 0, 1] ∧
    (List.range 3).map
        (fun j => (fixupPasses 3 (tocOfList [(0, 1), (0, 2), (0, 1)]) j).dwStartSector)
      = [1, 1, 1] ∧
    fixupPasses 4 mixedDisc.disc_toc = mixedDisc.disc_toc := by
  refine ⟨by decide, by decide, ?_⟩
  apply (fixupRaise_running_max 4 mixedDisc.disc_toc).2.2.2
  constructor
  · intro j hj
    have : j = 0 ∨ j = 1 ∨ j = 2 ∨ j = 3 := by omega
    rcases this with h | h | h | h <;> subst h <;> decide
  · intro j hj
    have : j = 0 ∨ j = 1 ∨ j = 2 := by omega
    rcases this with h | h | h <;> subst h <;> decide

/-! ## The value returned by `FixupTOC`, and the table after a failed query -/

/-- C16: `FixupTOC` returns -1 exactly when a descriptor is present and the
multisession query fails, 1 exactly when a descriptor is present and the query
succeeds with a lead-out address above 100, and 0 exactly in the other cases
(no descriptor, or a successful query with a lead-out address of at most
100).  The value does not depend on the track table or the track count. -/
theorem FixupTOC_return (ioctl : Int → ms_query) (d : cdrom_drive_t) (n : Nat) :
    ((FixupTOC ioctl d n).1 = -1 ↔
      (d.ioctl_fd ≠ -1 ∧ (ioctl d.ioctl_fd).result = -1)) ∧
    ((FixupTOC ioctl d n).1 = 1 ↔
      (d.ioctl_fd ≠ -1 ∧ (ioctl d.ioctl_fd).result ≠ -1 ∧ (ioctl d.ioctl_fd).lba > 100)) ∧
    ((FixupTOC ioctl d n).1 = 0 ↔
      (d.ioctl_fd = -1 ∨
        ((ioctl d.ioctl_fd).result ≠ -1 ∧ (ioctl d.ioctl_fd).lba ≤ 100))) ∧
    (∀ (d2 : cdrom_drive_t) (n2 : Nat), d2.ioctl_fd = d.ioctl_fd →
      (FixupTOC ioctl d2 n2).1 = (FixupTOC ioctl d n).1) := by
  have key : ∀ (e : cdrom_drive_t) (m : Nat), (FixupTOC ioctl e m).1 =
      if e.ioctl_fd ≠ -1 then
        if (ioctl e.ioctl_fd).result = -1 then -1
        else if (ioctl e.ioctl_fd).lba > 100 then 1 else 0
      else 0 := by
    intro e m
    unfold FixupTOC
    simp only
    split_ifs <;> rfl
  refine ⟨?_, ?_, ?_, ?_⟩
  · rw [key]
    split_ifs with h1 h2 h3 <;> simp_all
  · rw [key]
    split_ifs with h1 h2 h3 <;> simp_all
  · rw [key]
    split_ifs with h1 h2 h3 <;> simp_all
  · intro d2 n2 hfd
    rw [key, key, hfd]

/-- C16 at concrete drives: a failing query gives -1, lead-out 20000 gives 1
also on a disc of audio tracks only, where nothing is adjusted, lead-out 50
gives 0, no descriptor gives 0. -/
theorem FixupTOC_return_witness :
    (FixupTOC ioctlFails mixedDisc 4).1 = -1 ∧
    (FixupTOC (ioctlReports 20000) (driveOfList 3 [(0, 0), (0, 5000)]) 2).1 = 1 ∧
    (FixupTOC (ioctlReports 50) mixedDisc 4).1 = 0 ∧
    (FixupTOC (ioctlReports 20000) damagedDisc 4).1 = 0 :=
  ⟨(FixupTOC_return ioctlFails mixedDisc 4).1.mpr (by decide),
   by decide, by decide, by decide⟩

/-- C17: when a descriptor is present and the multisession query fails,
`FixupTOC` returns -1 and leaves the track table exactly as passes 1-3
produced it; that table differs from the input whenever the input was not
already non-negative and non-decreasing. -/
theorem FixupTOC_failure_table (ioctl : Int → ms_query) (d : cdrom_drive_t) (n : Nat)
    (hfd : d.ioctl_fd ≠ -1) (hres : (ioctl d.ioctl_fd).result = -1) :
    (FixupTOC ioctl d n).1 = -1 ∧
    (FixupTOC ioctl d n).2.disc_toc = fixupPasses n d.disc_toc ∧
    (¬ SortedTOC n d.disc_toc → (FixupTOC ioctl d n).2.disc_toc ≠ d.disc_toc) := by
  have hrun : FixupTOC ioctl d n = (-1, { d with disc_toc := fixupPasses n d.disc_toc }) := by
    unfold FixupTOC
    simp only
    rw [if_pos hfd, if_pos hres]
  rw [hrun]
  refine ⟨rfl, rfl, ?_⟩
  intro hns heq
  apply hns
  have hs := fixupPasses_sorted n d.disc_toc
  simp only at heq
  rw [heq] at hs
  exact hs

theorem damagedDiscFd_unsorted : ¬ SortedTOC 4 damagedDiscFd.disc_toc := by
  intro h
  have h1 := h.1 1 (by decide)
  revert h1
  decide

/-- C17 at a concrete drive: the damaged table `5, -3, 4, 2` with a failing
query comes back as `0, 0, 0, 2` together with the value -1. -/
theorem FixupTOC_failure_table_witness :
    (FixupTOC ioctlFails damagedDiscFd 4).1 = -1 ∧
    startsOf (FixupTOC ioctlFails damagedDiscFd 4).2 4 = [0, 0, 0, 2] ∧
    (FixupTOC ioctlFails damagedDiscFd 4).2.disc_toc ≠ damagedDiscFd.disc_toc :=
  ⟨(FixupTOC_failure_table ioctlFails damagedDiscFd 4 (by decide) (by decide)).1,
   by decide,
   (FixupTOC_failure_table ioctlFails damagedDiscFd 4 (by decide) (by decide)).2.2
     damagedDiscFd_unsorted⟩

/-! ## The byte-order setting after `data_bigendianp` -/

/-- After `data_bigendianp` the byte-order setting of the drive is the one on
entry when no read failed, and the forced value -1 when a read failed. -/
theorem data_bigendianp_endian_after {F : Type} (env : audio_env F) (d : cdrom_drive_t)
    (buff0 : Nat → Int) :
    ((∀ s n ret, drive_event.read_audio s n ret ∈ (data_bigendianp env d buff0).events →
        ret > 0) →
      (data_bigendianp env d buff0).drive = d) ∧
    (∀ s n ret, drive_event.read_audio s n ret ∈ (data_bigendianp env d buff0).events →
      ret ≤ 0 → (data_bigendianp env d buff0).drive = { d with bigendianp := -1 }) := by
  rcases data_bigendianp_cases env d buff0 with h | h
  · obtain ⟨-, hd, pre, s2, n2, ret2, e, hret, -⟩ := h
    refine ⟨?_, fun _ _ _ _ _ => hd⟩
    intro hok
    have := hok s2 n2 ret2 (by rw [e]; simp)
    omega
  · obtain ⟨-, hd, ⟨mid, e, g⟩, -⟩ := h
    refine ⟨fun _ => hd, ?_⟩
    intro s n ret hmem hfail
    rw [e] at hmem
    simp only [List.mem_append, List.mem_cons, List.mem_singleton, List.not_mem_nil,
      or_false] at hmem
    rcases hmem with (hm | hm) | hm
    · cases hm
    · have := goodRead_pos s n ret (g _ hm)
      omega
    · cases hm

/-- C14 fails on the code: a drive of three audio tracks enters with the
byte-order setting 1; the read of the second track fails, `data_bigendianp`
returns -1 and the setting is left at the forced value -1.  On the same drive
with every read succeeding the setting is restored to 1. -/
theorem data_bigendianp_endian_lost :
    (testDrive 3 1).bigendianp = 1 ∧
    (data_bigendianp (testEnv [1, 2, 3] 2000 2 1 7) (testDrive 3 1) (fun _ => 0)).ret = -1 ∧
    (data_bigendianp (testEnv [1, 2, 3] 2000 2 1 7) (testDrive 3 1)
      (fun _ => 0)).drive.bigendianp = -1 ∧
    (data_bigendianp (testEnv [1, 2, 3] 100000 2 1 7) (testDrive 3 1)
      (fun _ => 0)).drive.bigendianp = 1 := by
  decide

/-! ## The early stop of the track loop -/

theorem scanWindow_done {F : Type} (env : audio_env F) (d : cdrom_drive_t) (fuel : Nat) :
    ∀ (firstsector lastsector : Int) (beginsec : Nat) (buff : Nat → Int)
      (events : List drive_event) (z : Int) (bs : Nat) (b : Nat → Int)
      (ev : List drive_event),
      scanWindow env d fuel firstsector lastsector beginsec buff events
        = window_result.done z bs b ev →
      (z = 0 ∧ findWindow b = some bs) ∨ z = -1 := by
  induction fuel with
  | zero =>
    intro firstsector lastsector beginsec buff events z bs b ev h
    rw [scanWindow] at h
    injection h with h1
    exact Or.inr h1.symm
  | succ fuel ih =>
    intro firstsector lastsector beginsec buff events z bs b ev h
    rw [scanWindow] at h
    by_cases hle : firstsector + 5 ≤ lastsector
    · simp only [if_pos hle] at h
      by_cases hr : (env.read_audio d buff firstsector 5).1 > 0
      · simp only [if_pos hr] at h
        cases hw : findWindow (env.read_audio d buff firstsector 5).2 with
        | some b2 =>
          rw [hw] at h
          simp only at h
          injection h with h1 h2 h3 h4
          left
          refine ⟨h1.symm, ?_⟩
          rw [← h3, ← h2]
          exact hw
        | none =>
          rw [hw] at h
          simp only at h
          exact ih _ _ _ _ _ z bs b ev h
      · simp only [if_neg hr] at h
        cases h
    · simp only [if_neg hle] at h
      injection h with h1
      exact Or.inr h1.symm

theorem scanWindow_short {F : Type} (env : audio_env F) (d : cdrom_drive_t) (fuel : Nat)
    (firstsector lastsector : Int) (beginsec : Nat) (buff : Nat → Int)
    (events : List drive_event) (h : lastsector < firstsector + 5) :
    scanWindow env d fuel firstsector lastsector beginsec buff events
      = window_result.done (-1) beginsec buff events := by
  cases fuel with
  | zero => rfl
  | succ fuel =>
    rw [scanWindow, if_neg (by omega)]

theorem findWindow_nonzero (buff : Nat → Int) (bs : Nat) (h : findWindow buff = some bs) :
    ∃ k, buff k ≠ 0 := by
  unfold findWindow at h
  have hp := List.find?_some h
  rw [List.any_eq_true] at hp
  obtain ⟨j, -, hj⟩ := hp
  exact ⟨bs * CDIO_CD_FRAMESIZE_RAW / 2 + j, by simpa using hj⟩

theorem trackEnergy_short {F : Type} (env : audio_env F) (d : cdrom_drive_t) (i : Nat)
    (st : vote_state F)
    (h : env.cdda_track_lastsector d (i + 1) < env.cdda_track_firstsector d (i + 1) + 5) :
    trackEnergy env d i st = (some (env.fl.zero, env.fl.zero), st) := by
  unfold trackEnergy
  by_cases ha : env.cdda_track_audiop d (i + 1) = 1
  · simp only [if_pos ha]
    rw [scanWindow_short env d _ _ _ _ _ _ h]
    simp only
    rw [if_neg (by decide)]
  · simp only [if_neg ha]

/-- Energies other than 0 come from a window with a sample that is not zero. -/
theorem trackEnergy_source {F : Type} (env : audio_env F) (d : cdrom_drive_t) (i : Nat)
    (st st1 : vote_state F) (a b : F) (h : trackEnergy env d i st = (some (a, b), st1)) :
    (a = env.fl.zero ∧ b = env.fl.zero) ∨
    (env.cdda_track_audiop d (i + 1) = 1 ∧
      ∃ bs, findWindow st1.buff = some bs ∧ (∃ k, st1.buff k ≠ 0) ∧
        a = env.lsb_energy st1.buff (bs * (CDIO_CD_FRAMESIZE_RAW / 2)) ∧
        b = env.msb_energy st1.buff (bs * (CDIO_CD_FRAMESIZE_RAW / 2))) := by
  unfold trackEnergy at h
  by_cases ha : env.cdda_track_audiop d (i + 1) = 1
  · simp only [if_pos ha] at h
    cases hw : scanWindow env d
        (env.cdda_track_lastsector d (i + 1) - env.cdda_track_firstsector d (i + 1)).toNat
        (env.cdda_track_firstsector d (i + 1)) (env.cdda_track_lastsector d (i + 1)) 0
        st.buff st.events with
    | failed bf ev =>
      rw [hw] at h
      simp at h
    | done z bs bf ev =>
      rw [hw] at h
      simp only at h
      by_cases hz : z = 0
      · rw [if_pos hz] at h
        injection h with h1 h2
        injection h1 with h1
        injection h1 with ha1 hb1
        right
        rcases scanWindow_done env d _ _ _ _ _ _ z bs bf ev hw with hd | hd
        · have hbuf : st1.buff = bf := by rw [← h2]
          rw [hbuf]
          exact ⟨ha, bs, hd.2, findWindow_nonzero bf bs hd.2, ha1.symm, hb1.symm⟩
        · omega
      · rw [if_neg hz] at h
        injection h with h1 h2
        injection h1 with h1
        injection h1 with ha1 hb1
        left
        exact ⟨ha1.symm, hb1.symm⟩
  · simp only [if_neg ha] at h
    injection h with h1 h2
    injection h1 with h1
    injection h1 with ha1 hb1
    left
    exact ⟨ha1.symm, hb1.symm⟩

theorem castVote_counts {F : Type} (fl : float_ops F) (st : vote_state F) (a b : F) :
    ((fl.lt a b = true ∨ fl.lt b a = true) →
      (castVote fl st a b).checked = st.checked + 1) ∧
    ((fl.lt a b = false ∧ fl.lt b a = false) → castVote fl st a b = st) := by
  unfold castVote
  constructor
  · intro h
    by_cases h1 : fl.lt a b = true
    · rw [if_pos h1]
    · rw [if_neg h1]
      rcases h with h | h
      · exact absurd h h1
      · rw [if_pos h]
  · intro h
    rw [if_neg (by rw [h.1]; decide), if_neg (by rw [h.2]; decide)]

theorem pastStop_not_stopNow {F : Type} (fl : float_ops F) (st : vote_state F)
    (h : pastStop fl st) : ¬ stopNow fl st := by
  intro hs
  obtain ⟨h5, hz⟩ := hs
  rcases h with h | ⟨-, h1, h2⟩
  · omega
  · rw [h1, h2] at hz
    simp at hz

theorem pastStop_castVote {F : Type} (fl : float_ops F) (st : vote_state F) (a b : F)
    (h : pastStop fl st) : pastStop fl (castVote fl st a b) := by
  by_cases hv : fl.lt a b = true ∨ fl.lt b a = true
  · left
    rw [(castVote_counts fl st a b).1 hv]
    rcases h with h | ⟨h, -, -⟩ <;> omega
  · have h1 : fl.lt a b = false := by
      cases hab : fl.lt a b with
      | false => rfl
      | true => exact absurd (Or.inl hab) hv
    have h2 : fl.lt b a = false := by
      cases hba : fl.lt b a with
      | false => rfl
      | true => exact absurd (Or.inr hba) hv
    rw [(castVote_counts fl st a b).2 ⟨h1, h2⟩]
    exact h

/-- Once five tracks are checked with votes on both sides, or more than five
are checked, the track loop never takes its `break`. -/
theorem scanTracks_pastStop {F : Type} (env : audio_env F) (d : cdrom_drive_t) (l : List Nat) :
    ∀ st : vote_state F, pastStop env.fl st →
      scanTracks env d l st = scanTracksNoBreak env d l st := by
  induction l with
  | nil =>
    intro st _
    rfl
  | cons i rest ih =>
    intro st hp
    obtain ⟨-, hl, hm, hc⟩ := trackEnergy_trace env d i st
    cases hte : trackEnergy env d i st with
    | mk en st1 =>
      rw [hte] at hl hm hc
      simp only at hl hm hc
      cases en with
      | none =>
        rw [scanTracks_cons_none env d i rest st st1 hte, scanTracksNoBreak, hte]
      | some e =>
        obtain ⟨a, b⟩ := e
        have hp1 : pastStop env.fl st1 := by
          unfold pastStop
          rw [hl, hm, hc]
          exact hp
        have hp2 := pastStop_castVote env.fl st1 a b hp1
        rw [scanTracks_cons_continue env d i rest st st1 a b hte
          (pastStop_not_stopNow env.fl _ hp2), scanTracksNoBreak, hte]
        exact ih _ hp2

/-- C15: in the track loop of `data_bigendianp`
(1) a track is counted in `checked` when one of its two energies is less than
the other, and otherwise leaves votes and count as they were;
(2) a track that is not audio, a track too short for one read of 5 sectors,
and in general every track without a window holding a sample that is not zero
has both energies 0 and so casts no vote;
(3) when after the vote of a track `checked == 5` and one of the vote totals
is 0, the loop ends there: the tracks that remain are not visited and nothing
more is read;
(4) otherwise the loop goes on with the next track;
(5) once five tracks are checked with votes on both sides (or more than five
are checked) the loop visits every remaining track, as the loop without the
`break` does. -/
theorem scanTracks_early_stop {F : Type} (env : audio_env F) (d : cdrom_drive_t) :
    (∀ (st : vote_state F) (a b : F),
      ((env.fl.lt a b = true ∨ env.fl.lt b a = true) →
        (castVote env.fl st a b).checked = st.checked + 1) ∧
      ((env.fl.lt a b = false ∧ env.fl.lt b a = false) → castVote env.fl st a b = st)) ∧
    (∀ st : vote_state F, castVote env.fl st env.fl.zero env.fl.zero = st) ∧
    (∀ (i : Nat) (st : vote_state F), env.cdda_track_audiop d (i + 1) ≠ 1 →
      trackEnergy env d i st = (some (env.fl.zero, env.fl.zero), st)) ∧
    (∀ (i : Nat) (st : vote_state F),
      env.cdda_track_lastsector d (i + 1) < env.cdda_track_firstsector d (i + 1) + 5 →
      trackEnergy env d i st = (some (env.fl.zero, env.fl.zero), st)) ∧
    (∀ (i : Nat) (st st1 : vote_state F) (a b : F),
      trackEnergy env d i st = (some (a, b), st1) →
      (a = env.fl.zero ∧ b = env.fl.zero) ∨
      (env.cdda_track_audiop d (i + 1) = 1 ∧
        ∃ bs, findWindow st1.buff = some bs ∧ (∃ k, st1.buff k ≠ 0) ∧
          a = env.lsb_energy st1.buff (bs * (CDIO_CD_FRAMESIZE_RAW / 2)) ∧
          b = env.msb_energy st1.buff (bs * (CDIO_CD_FRAMESIZE_RAW / 2)))) ∧
    (∀ (i : Nat) (rest : List Nat) (st st1 : vote_state F) (a b : F),
      trackEnergy env d i st = (some (a, b), st1) →
      (stopNow env.fl (castVote env.fl st1 a b) →
        scanTracks env d (i :: rest) st = (false, castVote env.fl st1 a b) ∧
        (scanTracks env d (i :: rest) st).2.events = st1.events) ∧
      (¬ stopNow env.fl (castVote env.fl st1 a b) →
        scanTracks env d (i :: rest) st
          = scanTracks env d rest (castVote env.fl st1 a b))) ∧
    (∀ (l : List Nat) (st : vote_state F), pastStop env.fl st →
      scanTracks env d l st = scanTracksNoBreak env d l st) := by
  refine ⟨fun st a b => castVote_counts env.fl st a b, fun st => castVote_zero env.fl st,
    fun i st h => trackEnergy_not_audio env d i st h,
    fun i st h => trackEnergy_short env d i st h,
    fun i st st1 a b h => trackEnergy_source env d i st st1 a b h, ?_,
    fun l st h => scanTracks_pastStop env d l st h⟩
  intro i rest st st1 a b hte
  constructor
  · intro hs
    have e := scanTracks_cons_break env d i rest st st1 a b hte hs
    refine ⟨e, ?_⟩
    rw [e]
    exact castVote_events env.fl st1 a b
  · intro hs
    exact scanTracks_cons_continue env d i rest st st1 a b hte hs

/-- C15 at concrete drives of seven audio tracks.  When every track votes for
the same side the scan stops after the fifth track: five tracks are checked
and only the tracks at sectors 1000 to 5000 are read.  When the first track
votes for the other side the scan reads all seven tracks. -/
theorem scanTracks_early_stop_witness :
    (data_bigendianp (testEnv [1, 2, 3, 4, 5, 6, 7] 100000 1 2 7) (testDrive 7 0)
      (fun _ => 0)).checked = 5 ∧
    (data_bigendianp (testEnv [1, 2, 3, 4, 5, 6, 7] 100000 1 2 7) (testDrive 7 0)
      (fun _ => 0)).events
      = [drive_event.enable_cdda 1, drive_event.read_audio 1000 5 5,
         drive_event.read_audio 2000 5 5, drive_event.read_audio 3000 5 5,
         drive_event.read_audio 4000 5 5, drive_event.read_audio 5000 5 5,
         drive_event.enable_cdda 0] ∧
    (data_bigendianp mixedEnv (testDrive 7 0) (fun _ => 0)).checked = 7 ∧
    (data_bigendianp mixedEnv (testDrive 7 0) (fun _ => 0)).events
      = [drive_event.enable_cdda 1, drive_event.read_audio 1000 5 5,
         drive_event.read_audio 2000 5 5, drive_event.read_audio 3000 5 5,
         drive_event.read_audio 4000 5 5, drive_event.read_audio 5000 5 5,
         drive_event.read_audio 6000 5 5, drive_event.read_audio 7000 5 5,
         drive_event.enable_cdda 0] ∧
    castVote mixedEnv.fl (initVotes mixedEnv (fun _ => 0)) 0 0
      = initVotes mixedEnv (fun _ => 0) :=
  ⟨by decide, by decide, by decide, by decide,
   (scanTracks_early_stop mixedEnv (testDrive 7 0)).2.1 (initVotes mixedEnv (fun _ => 0))⟩


end Libcdio
